import Mathlib

/-!
Verification of the weather-data-system normalization pipeline.

This file is a shallow embedding of the repository's core logic:

* `src/DataProcessingModule.py` — `WeatherDataProcessor.clean_and_transform_data`,
  embedded as `cleanAndTransform` over a small dataframe model (`Frame`);
* `src/APIMODULE.py` — the median computation of
  `WeatherAPI.get_monthly_temperature_stats` (lines 120-131), embedded as `queryMedian`;
* `src/DataStorageModule.py` — the record construction of
  `WeatherDatabase.store_data` (lines 83-129), embedded as `storeRecord`.

Cells are modelled by `Cell` (null / rational number / string).  Library behaviour
that the repository relies on (pandas, sqlite) is modelled cell-by-cell next to the
definition that uses it; each such model is documented where it is declared.
Timestamps are modelled as points on a rational time axis: the claims under study
depend only on parseability, equality and ordering of timestamps, never on calendar
structure, so the derived year/month/day/hour/date/month_name columns (lines 72-77 of
`DataProcessingModule.py`, pure functions of the timestamp) are not tracked by the
model; no claim mentions them.
-/

/-- Cell of a raw or processed tabular dataset: missing (`null`, modelling both
`None` and `NaN`), a number, or a string. -/
inductive Cell where
  | null : Cell
  | num : ℚ → Cell
  | str : String → Cell
deriving DecidableEq, Repr

/-- True on the missing cell, as `pandas.isna` per cell. -/
def isNull : Cell → Bool
  | .null => true
  | _ => false

/-- Numeric payload of a cell, if any. -/
def cellNum? : Cell → Option ℚ
  | .num q => some q
  | _ => none

/-- Per-character model of Python `str.lower()` composed with
`.replace('_', '').replace(' ', '')` — the normalization applied to raw column
names on line 95 (and line 52, for the raw side) of `DataProcessingModule.py`.
Replacing every occurrence of a single character by the empty string is the same
as filtering that character out. -/
def normKey (s : String) : String :=
  String.mk ((s.data.map Char.toLower).filter (fun c => !(c == '_' || c == ' ')))

/-- Per-character model of Python `c.lower().replace('_', '')` — the normalization
applied to the accepted datetime spellings on line 52 of `DataProcessingModule.py`
(note: unlike `normKey`, spaces are not stripped on this side). -/
def dtVariantKey (s : String) : String :=
  String.mk ((s.data.map Char.toLower).filter (fun c => !(c == '_')))

/-- Per-character model of Python `str.lower()` — the search key used for the
boolean event columns on line 127 of `DataProcessingModule.py`. -/
def strToLower (s : String) : String :=
  String.mk (s.data.map Char.toLower)

/-- Accepted spellings for the timestamp column
(`possible_datetime_cols`, line 49 of `DataProcessingModule.py`). -/
def possibleDatetimeCols : List String :=
  ["datetimeutc", "datetime_utc", "DateTimeUTC", "DateTime", "datetime"]

/-- Normalized variant keys `[c.lower().replace('_', '') for c in possible_datetime_cols]`
(line 52 of `DataProcessingModule.py`). -/
def datetimeVariantKeys : List String :=
  possibleDatetimeCols.map dtVariantKey

/-- Test from line 52 of `DataProcessingModule.py`: does a raw column name,
normalized by `normKey`, match any accepted datetime variant? -/
def isDatetimeMatch (col : String) : Bool :=
  datetimeVariantKeys.contains (normKey col)

/-- Datetime column resolution, lines 51-55 of `DataProcessingModule.py`: the loop
takes the first raw column (in declaration order) matching a variant and breaks. -/
def findDatetimeCol (cols : List String) : Option String :=
  cols.find? isDatetimeMatch

/-- Model of the lookup `col_mapping[search_key]` where
`col_mapping = {normKey(col): col for col in columns}` (lines 95-96 of
`DataProcessingModule.py`).  In a Python dict comprehension a later column with the
same normalized key overwrites an earlier one, so the lookup yields the **last**
matching column in declaration order. -/
def colMapping (cols : List String) (key : String) : Option String :=
  (cols.filter (fun c => normKey c == key)).getLast?

/-- Digit-string accumulator for the numeric parsing model. -/
def natOfChars : List Char → ℕ → ℕ
  | [], acc => acc
  | c :: cs, acc => natOfChars cs (acc * 10 + (c.toNat - 48))

/-- Parse a non-empty all-digit string to a natural number; `none` otherwise. -/
def parseNat? (s : String) : Option ℕ :=
  if !s.data.isEmpty && s.data.all Char.isDigit then some (natOfChars s.data 0) else none

/-- Parse an optionally negated non-empty all-digit string to an integer;
`none` otherwise. -/
def parseInt? (s : String) : Option ℤ :=
  match s.data with
  | '-' :: rest =>
      if !rest.isEmpty && rest.all Char.isDigit then some (-(natOfChars rest 0 : ℤ)) else none
  | l => if !l.isEmpty && l.all Char.isDigit then some ((natOfChars l 0 : ℤ)) else none

/-- Modelled abstraction of `pd.to_datetime(..., errors='coerce')` per cell
(line 62 of `DataProcessingModule.py`): a missing cell and an unparseable string
coerce to `NaT` (`none`); a numeric cell and a digit-string cell parse to a
timestamp, modelled as a point on a rational time axis.  The claims under study
depend only on which cells parse and on the ordering of parsed timestamps, never
on calendar structure, so this captures the relevant behaviour. -/
def toDatetime : Cell → Option ℚ
  | .null => none
  | .num q => some q
  | .str s => (parseNat? s).map (fun n => (n : ℚ))

/-- Result cell of the datetime conversion: parsed timestamp or `NaT` (null). -/
def parseDtCell (c : Cell) : Cell :=
  match toDatetime c with
  | some t => .num t
  | none => .null

/-- Model of `pd.to_numeric(..., errors='coerce')` per cell (line 103 of
`DataProcessingModule.py`): numbers pass through, integer-literal strings parse,
anything else coerces to null and never raises. -/
def toNumeric? : Cell → Option ℚ
  | .null => none
  | .num q => some q
  | .str s => (parseInt? s).map (fun n => (n : ℚ))

/-- Numeric coercion producing a cell. -/
def toNumericCell (c : Cell) : Cell :=
  match toNumeric? c with
  | some q => .num q
  | none => .null

/-- Model of pandas `.astype(str)` per cell: a missing value stringifies to
`"nan"`, numbers to their decimal text, strings to themselves.  (`None` would
stringify to `"None"`; both tokens are collapsed to null by the categorical
canonicalization below, so the choice does not affect any claim.) -/
def pyStr : Cell → String
  | .null => "nan"
  | .num q => toString q
  | .str s => s

/-- Per-character model of Python `str.strip()` / pandas `.str.strip()`:
drop leading and trailing whitespace. -/
def pyStrip (s : String) : String :=
  String.mk (((s.data.dropWhile Char.isWhitespace).reverse.dropWhile Char.isWhitespace).reverse)

/-- Tokens collapsed to null by `.replace(['nan', '', 'None'], None)`
(line 119 of `DataProcessingModule.py`). -/
def blankTokens : List String :=
  ["nan", "", "None"]

/-- Categorical coercion per cell, lines 118-119 of `DataProcessingModule.py`:
`astype(str)`, then `.str.strip()`, then collapse the literal tokens
`"nan"`, `""`, `"None"` to null. -/
def coerceCategoricalCell (c : Cell) : Cell :=
  let s := pyStrip (pyStr c)
  if blankTokens.contains s then .null else .str s

/-- Truncation toward zero, as Python `int(...)` on a real number. -/
def truncQ (q : ℚ) : ℤ :=
  if q < 0 then -((-q).floor) else q.floor

/-- Model of `.fillna(0).astype(int)` per cell (line 130 of
`DataProcessingModule.py`): a missing cell becomes `0`; a number is truncated
toward zero by `int(...)`; a string cell must be an integer literal, otherwise
`int(...)` raises `ValueError` — modelled as `none`. -/
def intOfCell? : Cell → Option ℤ
  | .null => some 0
  | .num q => some (truncQ q)
  | .str s => parseInt? s

/-- Cell holding an integer value (the `int64` cells produced by `astype(int)`). -/
def intCell (n : ℤ) : Cell :=
  Cell.num (n : ℚ)

/-- Ascending sort of rationals.  Models the sorting performed by pandas and by
SQL `ORDER BY`; a stable structural sort is used as the model. -/
def sortQ (l : List ℚ) : List ℚ :=
  l.insertionSort (· ≤ ·)

/-- Median as computed by pandas `Series.median()` over the non-null values
(used by the imputation on lines 150 and 160 of `DataProcessingModule.py`):
sort ascending; for an odd count the middle value, for an even count the
arithmetic mean of the two middle values; `NaN` (`none`) on the empty list. -/
def pandasMedian (l : List ℚ) : Option ℚ :=
  let s := sortQ l
  if s.length = 0 then none
  else if s.length % 2 = 1 then some (s.getD (s.length / 2) 0)
  else some ((s.getD (s.length / 2 - 1) 0 + s.getD (s.length / 2) 0) / 2)

/-- Median as computed by the Query Service
(`APIMODULE.get_monthly_temperature_stats`, lines 127-131): given the non-null
temperatures already sorted ascending by SQL `ORDER BY temperature`, return
`None` when empty, else `temps[n//2]` for odd `n` and
`(temps[n//2-1] + temps[n//2]) / 2` for even `n`. -/
def queryMedian (temps : List ℚ) : Option ℚ :=
  if temps.isEmpty then none
  else if temps.length % 2 = 1 then some (temps.getD (temps.length / 2) 0)
  else some ((temps.getD (temps.length / 2 - 1) 0 + temps.getD (temps.length / 2) 0) / 2)

/-- Median of the numeric values of a cell column, as `processed_df[col].median()`
(pandas skips nulls; `NaN` on an all-null column). -/
def colMedian (cells : List Cell) : Option ℚ :=
  pandasMedian (cells.filterMap cellNum?)

/-- Forward-fill worker: `last` is the most recent non-null cell seen so far
(`none` before the first observation). -/
def ffillGo : Option Cell → List Cell → List Cell
  | _, [] => []
  | last, c :: cs =>
      if isNull c then (last.getD Cell.null) :: ffillGo last cs
      else c :: ffillGo (some c) cs

/-- Model of pandas `Series.ffill()`: each null is replaced by the most recent
prior non-null value in row order; leading nulls stay null. -/
def ffillCells (l : List Cell) : List Cell :=
  ffillGo none l

/-- Model of pandas `Series.fillna(v)` with a scalar: filling with `NaN`
(`none`, the median of an empty set) leaves the column unchanged. -/
def fillnaCells (cells : List Cell) : Option ℚ → List Cell
  | none => cells
  | some q => cells.map (fun c => if isNull c then Cell.num q else c)

/-- Critical-field imputation, line 150 of `DataProcessingModule.py`:
`processed_df[col].ffill().fillna(processed_df[col].median())`.  The median
argument is evaluated on the original (pre-ffill) column. -/
def imputeCritical (cells : List Cell) : List Cell :=
  fillnaCells (ffillCells cells) (colMedian cells)

/-- Non-critical numeric imputation, line 160 of `DataProcessingModule.py`:
`processed_df[col].fillna(processed_df[col].median())`. -/
def imputeOther (cells : List Cell) : List Cell :=
  fillnaCells cells (colMedian cells)

/-- Specification helper: the most recent non-null cell of `l`, falling back to
`last` when `l` has none.  Used only in theorem statements. -/
def lastObs (last : Option Cell) (l : List Cell) : Option Cell :=
  ((l.filter (fun c => !(isNull c))).getLast?).or last

/-- Dataframe model: a shared list of column names and row-major cells; row `r`
holds the cell of column `cols[j]` at position `j`.  Mirrors a pandas DataFrame
as used by `clean_and_transform_data`. -/
structure Frame where
  cols : List String
  rows : List (List Cell)
deriving DecidableEq, Repr

/-- Position of the first column with the given name (`none` when absent). -/
def colIdx : List String → String → Option ℕ
  | [], _ => none
  | c :: cs, name => if c = name then some 0 else (colIdx cs name).map (· + 1)

/-- Column list after an assignment `df[name] = ...`: pandas overwrites an
existing column in place and appends a new one at the end. -/
def addCol (cols : List String) (name : String) : List String :=
  match colIdx cols name with
  | some _ => cols
  | none => cols ++ [name]

/-- Read a column by name: the cells of each row at the column's position. -/
def Frame.getCol? (f : Frame) (name : String) : Option (List Cell) :=
  (colIdx f.cols name).map (fun i => f.rows.map (fun r => r.getD i Cell.null))

/-- Combine each row with the corresponding cell of a column being assigned. -/
def zipCells (g : List Cell → Cell → List Cell) : List (List Cell) → List Cell → List (List Cell)
  | [], _ => []
  | r :: rs, cs => g r (cs.headD Cell.null) :: zipCells g rs cs.tail

/-- Column assignment `df[name] = cells`: overwrite the existing column in place,
or append a new column at the end. -/
def Frame.setCol (f : Frame) (name : String) (cells : List Cell) : Frame :=
  match colIdx f.cols name with
  | some i => ⟨f.cols, zipCells (fun r c => r.set i c) f.rows cells⟩
  | none => ⟨f.cols ++ [name], zipCells (fun r c => r ++ [c]) f.rows cells⟩

/-- Well-formedness: every row has exactly one cell per column. -/
def Frame.WF (f : Frame) : Prop :=
  ∀ r ∈ f.rows, r.length = f.cols.length

/-- Raw-to-canonical name table for numeric fields
(`numeric_columns`, lines 80-92 of `DataProcessingModule.py`). -/
def numericColumnsMap : List (String × String) :=
  [("tempm", "temperature"), ("hum", "humidity"), ("pressurem", "pressure"),
   ("heatindexm", "heat_index"), ("dewptm", "dew_point"), ("precipm", "precipitation"),
   ("vism", "visibility"), ("wdird", "wind_direction"), ("wspdm", "wind_speed"),
   ("wgustm", "wind_gust"), ("windchillm", "wind_chill")]

/-- Raw-to-canonical name table for categorical fields
(`categorical_columns`, lines 109-112 of `DataProcessingModule.py`). -/
def categoricalColumnsMap : List (String × String) :=
  [("conds", "weather_condition"), ("wdire", "wind_direction_text")]

/-- Event kinds (`boolean_columns`, line 125 of `DataProcessingModule.py`). -/
def booleanColumns : List String :=
  ["fog", "hail", "rain", "snow", "thunder", "tornado"]

/-- Critical numeric fields (line 145 of `DataProcessingModule.py`). -/
def criticalColumns : List String :=
  ["temperature", "humidity", "pressure"]

/-- Non-critical numeric fields (lines 154-155 of `DataProcessingModule.py`). -/
def otherNumericColumns : List String :=
  ["heat_index", "dew_point", "precipitation", "visibility",
   "wind_direction", "wind_speed", "wind_gust", "wind_chill"]

/-- Shared shape of the numeric and categorical mapping loops
(lines 98-106 and 114-122 of `DataProcessingModule.py`): for each
`(original_col, new_col)`, look the normalized key up in `col_mapping`; on a hit,
assign the coerced actual column to `new_col`; on a miss only a warning is
logged — no column is created. -/
def coerceStage (coe : Cell → Cell) (maps : List (String × String))
    (keyed : List String) (f : Frame) : Frame :=
  maps.foldl (fun acc om =>
    match colMapping keyed (normKey om.1) with
    | some actual => acc.setCol om.2 (((acc.getCol? actual).getD []).map coe)
    | none => acc) f

/-- Numeric mapping loop (lines 98-106 of `DataProcessingModule.py`). -/
def numericStage (keyed : List String) (f : Frame) : Frame :=
  coerceStage toNumericCell numericColumnsMap keyed f

/-- Categorical mapping loop (lines 114-122 of `DataProcessingModule.py`). -/
def categoricalStage (keyed : List String) (f : Frame) : Frame :=
  coerceStage coerceCategoricalCell categoricalColumnsMap keyed f

/-- One iteration of the event-flag loop (lines 126-135 of
`DataProcessingModule.py`): on a resolution hit assign `fillna(0).astype(int)` of
the actual column to `{col}_event` — `astype(int)` raises on a non-integer string
cell, modelled by the `Option`; on a miss create the column as all zeros. -/
def eventStep (keyed : List String) (acc : Frame) (col : String) : Option Frame :=
  match colMapping keyed (strToLower col) with
  | some actual =>
      (((acc.getCol? actual).getD []).mapM intOfCell?).map
        (fun ns => acc.setCol (col ++ "_event") (ns.map intCell))
  | none => some (acc.setCol (col ++ "_event") (List.replicate acc.rows.length (Cell.num 0)))

/-- Event-flag loop (lines 124-135 of `DataProcessingModule.py`). -/
def eventStage (keyed : List String) (f : Frame) : Option Frame :=
  booleanColumns.foldlM (eventStep keyed) f

/-- Row drop `processed_df.dropna(subset=['datetime_utc'])`
(line 139 of `DataProcessingModule.py`). -/
def dropInvalidDates (f : Frame) : Frame :=
  match colIdx f.cols "datetime_utc" with
  | some i => ⟨f.cols, f.rows.filter (fun r => !(isNull (r.getD i Cell.null)))⟩
  | none => f

/-- Timestamp value of a cell for sorting (after the row drop every
`datetime_utc` cell is numeric, so the default is never relevant there). -/
def qOf : Cell → ℚ
  | .num q => q
  | _ => 0

/-- Sort key of a row: its `datetime_utc` value. -/
def dtKey (i : ℕ) (r : List Cell) : ℚ :=
  qOf (r.getD i Cell.null)

/-- Row sort `processed_df.sort_values('datetime_utc')`
(line 164 of `DataProcessingModule.py`), modelled as a stable ascending sort. -/
def sortByDatetime (f : Frame) : Frame :=
  match colIdx f.cols "datetime_utc" with
  | some i => ⟨f.cols, f.rows.insertionSort (fun a b => dtKey i a ≤ dtKey i b)⟩
  | none => f

/-- Shared shape of the two imputation loops (lines 144-161 of
`DataProcessingModule.py`): for each column name, if the column exists and has at
least one missing value, replace it by its imputed version. -/
def imputeStage (imp : List Cell → List Cell) (names : List String) (f : Frame) : Frame :=
  names.foldl (fun acc col =>
    match acc.getCol? col with
    | some cells =>
        if 0 < (cells.filter isNull).length then acc.setCol col (imp cells) else acc
    | none => acc) f

/-- Errors of the pipeline.  `schemaError` models the
`ValueError("Cannot find datetime column in the dataset")` of line 59 (the spec's
`SchemaError`); `dataQualityError` models the
`ValueError("No valid dates found after conversion")` of line 69 (the spec's
`DataQualityError`); `castError` models the `ValueError` that
`.astype(int)` raises on a non-integer string cell in line 130. -/
inductive PErr where
  | schemaError : PErr
  | dataQualityError : PErr
  | castError : PErr
deriving DecidableEq, Repr

/-- Embedding of `WeatherDataProcessor.clean_and_transform_data`
(`DataProcessingModule.py`, lines 39-181), stage by stage in source order:
resolve the datetime column (first match wins, line 51-55; `SchemaError` when
none, line 59); parse it with per-cell coercion to `NaT` (line 62) and fail with
`DataQualityError` when no cell parsed (lines 65-69); map numeric, categorical
and event columns through `col_mapping` (lines 94-135); drop rows with invalid
dates (line 139); impute critical then other numeric columns (lines 144-161);
sort by timestamp (line 164).  `col_mapping` is built once, after the
`datetime_utc` assignment.  Exceptions are modelled by `Except`; a raised error
aborts the run, so nothing is produced or stored. -/
def cleanAndTransform (df : Frame) : Except PErr Frame :=
  match findDatetimeCol df.cols with
  | none => .error .schemaError
  | some datetimeCol =>
      let f1 := df.setCol "datetime_utc" (((df.getCol? datetimeCol).getD []).map parseDtCell)
      let validDates := (((f1.getCol? "datetime_utc").getD []).filter (fun c => !(isNull c))).length
      if validDates = 0 then .error .dataQualityError
      else
        let keyed := f1.cols
        match eventStage keyed (categoricalStage keyed (numericStage keyed f1)) with
        | none => .error .castError
        | some f4 =>
            .ok (sortByDatetime (imputeStage imputeOther otherNumericColumns
              (imputeStage imputeCritical criticalColumns (dropInvalidDates f4))))

/-- Surviving row restricted to the two components relevant to critical-field
imputation: the parsed timestamp and one critical-field cell.  Models one row of
the frame between line 139 (row drop) and line 164 (sort) of
`DataProcessingModule.py`. -/
structure ObsRow where
  dt : ℚ
  temp : Cell
deriving DecidableEq, Repr

/-- Write an imputed column back into the rows (positional, like a pandas column
assignment). -/
def setTemps : List ObsRow → List Cell → List ObsRow
  | [], _ => []
  | r :: rs, ts => { r with temp := ts.headD Cell.null } :: setTemps rs ts.tail

/-- Ascending stable sort of observation rows by timestamp, modelling
`sort_values('datetime_utc')`. -/
def sortObs (rows : List ObsRow) : List ObsRow :=
  rows.insertionSort (fun a b => a.dt ≤ b.dt)

/-- What the code does (lines 144-164 of `DataProcessingModule.py`), restricted
to one critical field: impute in the surviving rows' input order, then sort by
timestamp. -/
def imputeThenSort (rows : List ObsRow) : List ObsRow :=
  sortObs (setTemps rows (imputeCritical (rows.map ObsRow.temp)))

/-- What the spec's ordering note describes: sort the surviving rows by
timestamp ascending first, then forward-fill-impute in that order.  Declared
from the spec's words, for comparison with `imputeThenSort`. -/
def sortThenImpute (rows : List ObsRow) : List ObsRow :=
  let s := sortObs rows
  setTemps s (imputeCritical (s.map ObsRow.temp))

/-- Canonical row handed to the Store, as a name-to-cell association list
(a pandas row accessed via `row.get(...)`). -/
abbrev SRow := List (String × Cell)

/-- Model of `row.get(key)` returning `none` when the label is absent. -/
def rowGet? (r : SRow) (k : String) : Option Cell :=
  (r.find? (fun p => p.1 == k)).map (fun p => p.2)

/-- Model of `row.get(key)` as a cell: an absent label yields `None` (null). -/
def pyGetCell (r : SRow) (k : String) : Cell :=
  (rowGet? r k).getD Cell.null

/-- Model of `Timestamp.isoformat()`: some textual rendering of the timestamp
(its exact format is irrelevant to every claim). -/
def isoformat (t : ℚ) : String :=
  toString t

/-- Nullable columns of the `weather_data` table in the order of
`store_data` (`DataStorageModule.py`, lines 91-118). -/
def storeNullableFields : List String :=
  ["datetime_utc", "date", "year", "month", "day", "hour", "month_name",
   "temperature", "humidity", "pressure", "heat_index", "dew_point",
   "weather_condition", "precipitation", "visibility",
   "wind_direction", "wind_direction_text", "wind_speed", "wind_gust", "wind_chill"]

/-- Event-flag columns of the `weather_data` table (`DataStorageModule.py`,
lines 121-126), inserted with the default `0` when absent. -/
def storeEventFields : List String :=
  ["fog_event", "hail_event", "rain_event", "snow_event", "thunder_event", "tornado_event"]

/-- Value persisted for one nullable field (`DataStorageModule.py`, lines 91-118):
`datetime_utc` is rendered by `isoformat` when present (a canonical row holds a
numeric timestamp there) and `None` otherwise; `date` is stringified when
non-null; every other field is `row.get(key)`, so an absent label persists as
`None`. -/
def storedValue (r : SRow) (k : String) : Cell :=
  if k = "datetime_utc" then
    match pyGetCell r "datetime_utc" with
    | .num t => .str (isoformat t)
    | _ => .null
  else if k = "date" then
    match pyGetCell r "date" with
    | .null => .null
    | c => .str (pyStr c)
  else pyGetCell r k

/-- Embedding of the record construction of `WeatherDatabase.store_data`
(`DataStorageModule.py`, lines 90-127): one inserted row, with `row.get(key)`
for nullable fields and `row.get(key, 0)` for event flags. -/
def storeRecord (r : SRow) : SRow :=
  storeNullableFields.map (fun k => (k, storedValue r k))
    ++ storeEventFields.map (fun k => (k, (rowGet? r k).getD (Cell.num 0)))

deriving instance DecidableEq for Except

instance (f : Frame) : Decidable f.WF :=
  inferInstanceAs (Decidable (∀ r ∈ f.rows, r.length = f.cols.length))

/-- Input frame of the C4 witness: a resolvable timestamp column only. -/
def c4In : Frame :=
  ⟨["datetime"], [[Cell.str "5"]]⟩

/-- Output frame the pipeline produces for `c4In`. -/
def c4Out : Frame :=
  ⟨["datetime", "datetime_utc", "fog_event", "hail_event", "rain_event", "snow_event",
      "thunder_event", "tornado_event"],
    [[Cell.str "5", Cell.num 5, Cell.num 0, Cell.num 0, Cell.num 0, Cell.num 0,
      Cell.num 0, Cell.num 0]]⟩

/-- Input frame of the C5 witness. -/
def c5In : Frame :=
  ⟨["datetime", "fog"], [[Cell.str "1", Cell.num 2]]⟩

/-- Output frame the pipeline produces for `c5In`. -/
def c5Out : Frame :=
  ⟨["datetime", "fog", "datetime_utc", "fog_event", "hail_event", "rain_event",
      "snow_event", "thunder_event", "tornado_event"],
    [[Cell.str "1", Cell.num 2, Cell.num 1, Cell.num 2, Cell.num 0, Cell.num 0,
      Cell.num 0, Cell.num 0, Cell.num 0]]⟩

/-- Input frame of the C6 witness: three rows, one unparseable timestamp. -/
def c6In : Frame :=
  ⟨["datetime"], [[Cell.str "2"], [Cell.str "x"], [Cell.str "1"]]⟩

-- ffill characterization
theorem lastObs_cons (last : Option Cell) (c : Cell) (t : List Cell) :
    lastObs last (c :: t) = lastObs (if isNull c then last else some c) t := by
  by_cases hc : isNull c
  · simp [lastObs, List.filter_cons, hc]
  · cases hgl : (t.filter (fun x => !(isNull x))).getLast? with
    | none => simp [lastObs, List.filter_cons, hc, List.getLast?_cons, hgl, Option.or]
    | some x => simp [lastObs, List.filter_cons, hc, List.getLast?_cons, hgl, Option.or]

theorem ffillGo_getD (l : List Cell) : ∀ (last : Option Cell) (i : ℕ), i < l.length →
    (ffillGo last l).getD i Cell.null = (lastObs last (l.take (i + 1))).getD Cell.null := by
  induction l with
  | nil => intro last i h; simp at h
  | cons c cs ih =>
    intro last i h
    cases i with
    | zero =>
      by_cases hc : isNull c
      · simp [ffillGo, hc, lastObs, List.filter_cons]
      · simp [ffillGo, hc, lastObs, List.filter_cons]
    | succ i =>
      have hlt : i < cs.length := by simpa using h
      by_cases hc : isNull c
      · simpa [ffillGo, hc, List.take, lastObs_cons] using ih last i hlt
      · simpa [ffillGo, hc, List.take, lastObs_cons] using ih (some c) i hlt

theorem ffillGo_length (l : List Cell) : ∀ last, (ffillGo last l).length = l.length := by
  induction l with
  | nil => intro last; rfl
  | cons c cs ih =>
    intro last
    by_cases hc : isNull c <;> simp [ffillGo, hc, ih]

theorem fillnaCells_length (cells : List Cell) (v : Option ℚ) :
    (fillnaCells cells v).length = cells.length := by
  cases v <;> simp [fillnaCells]

theorem imputeCritical_length (cells : List Cell) :
    (imputeCritical cells).length = cells.length := by
  simp [imputeCritical, fillnaCells_length, ffillCells, ffillGo_length]

theorem lastObs_none_not_null {l : List Cell} {v : Cell}
    (h : lastObs none l = some v) : isNull v = false := by
  simp only [lastObs, Option.or_none] at h
  have hv := List.mem_of_getLast?_eq_some h
  have := List.of_mem_filter hv
  simpa using this

theorem getD_map_of_lt {α β : Type} (f : α → β) (l : List α) (i : ℕ) (d : β) (d' : α)
    (h : i < l.length) : (l.map f).getD i d = f (l.getD i d') := by
  rw [List.getD_eq_getElem _ _ (by simpa using h), List.getD_eq_getElem _ _ h, List.getElem_map]

theorem imputeCritical_getD (cells : List Cell) (i : ℕ) (h : i < cells.length) :
    (imputeCritical cells).getD i Cell.null =
      match lastObs none (cells.take (i + 1)) with
      | some v => v
      | none =>
          match colMedian cells with
          | some q => Cell.num q
          | none => Cell.null := by
  have hff : (ffillCells cells).getD i Cell.null = (lastObs none (cells.take (i + 1))).getD Cell.null :=
    ffillGo_getD cells none i h
  cases hm : colMedian cells with
  | none =>
    simp only [imputeCritical, hm, fillnaCells, hff]
    cases hl : lastObs none (cells.take (i + 1)) <;> simp [hl]
  | some q =>
    have hlen : i < (ffillCells cells).length := by
      simpa [ffillCells, ffillGo_length] using h
    simp only [imputeCritical, hm, fillnaCells]
    rw [getD_map_of_lt _ _ _ _ Cell.null hlen, hff]
    cases hl : lastObs none (cells.take (i + 1)) with
    | none => simp [isNull]
    | some v => simp [lastObs_none_not_null hl]

-- ===== C1 =====

/-- C1 (counterexample): on the spec's own input `[null, null, 10, null, 20, null]`
the pipeline's critical-field imputation does not produce `[10, 10, 10, 10, 20, 20]`:
the two leading nulls have no prior observation, so they are filled with the median
15 of the non-null values `[10, 20]`, giving `[15, 15, 10, 10, 20, 20]`. -/
theorem C1_counterexample :
    imputeCritical [Cell.null, Cell.null, Cell.num 10, Cell.null, Cell.num 20, Cell.null] =
        [Cell.num 15, Cell.num 15, Cell.num 10, Cell.num 10, Cell.num 20, Cell.num 20] ∧
      imputeCritical [Cell.null, Cell.null, Cell.num 10, Cell.null, Cell.num 20, Cell.null] ≠
        [Cell.num 10, Cell.num 10, Cell.num 10, Cell.num 10, Cell.num 20, Cell.num 20] := by
  constructor
  · norm_num [imputeCritical, colMedian, pandasMedian, sortQ, ffillCells, ffillGo,
      fillnaCells, isNull, cellNum?]
  · intro hcontra
    have := congrArg (fun l => l.getD 0 Cell.null) hcontra
    norm_num [imputeCritical, colMedian, pandasMedian, sortQ, ffillCells, ffillGo,
      fillnaCells, isNull, cellNum?] at this

/-- C1 (amended): critical-field imputation preserves the column length, and the
value at every position `i` is the most recent non-null value at or before `i`
(forward fill); where none exists (leading nulls) it is the median of the
column's original non-null values, and where that median does not exist either
(an all-null column) the cell stays null.  In particular, for the input
`[null, null, 10, null, 20, null]` the output is `[15, 15, 10, 10, 20, 20]`
(not `[10, 10, 10, 10, 20, 20]`): the two leading nulls take the median 15. -/
theorem C1_critical_imputation_amended :
    (∀ cells : List Cell, (imputeCritical cells).length = cells.length) ∧
    (∀ (cells : List Cell) (i : ℕ), i < cells.length →
      (imputeCritical cells).getD i Cell.null =
        match lastObs none (cells.take (i + 1)) with
        | some v => v
        | none =>
            match colMedian cells with
            | some q => Cell.num q
            | none => Cell.null) ∧
    imputeCritical [Cell.null, Cell.null, Cell.num 10, Cell.null, Cell.num 20, Cell.null] =
      [Cell.num 15, Cell.num 15, Cell.num 10, Cell.num 10, Cell.num 20, Cell.num 20] := by
  refine ⟨imputeCritical_length, imputeCritical_getD, ?_⟩
  norm_num [imputeCritical, colMedian, pandasMedian, sortQ, ffillCells, ffillGo,
    fillnaCells, isNull, cellNum?]

/-- C1 witness: the amended characterization applied at a concrete column and
position. -/
theorem C1_critical_imputation_amended_witness :
    (0 : ℕ) < ([Cell.null, Cell.num 3] : List Cell).length ∧
      (imputeCritical [Cell.null, Cell.num 3]).getD 0 Cell.null =
        match lastObs none (([Cell.null, Cell.num 3] : List Cell).take (0 + 1)) with
        | some v => v
        | none =>
            match colMedian [Cell.null, Cell.num 3] with
            | some q => Cell.num q
            | none => Cell.null :=
  ⟨by decide, C1_critical_imputation_amended.2.1 [Cell.null, Cell.num 3] 0 (by decide)⟩

-- ===== C3 =====

/-- C3 (counterexample): the pipeline imputes critical fields **before** sorting
by timestamp (line 150 runs before line 164), so on surviving rows that arrive
out of timestamp order the result differs from sorting first and then
forward-filling.  With rows (dt, temp) = [(2, null), (1, 10), (3, 20), (4, 30),
(5, null)], the code fills the dt=2 null with the dataset median 20 (it is a
leading null in input order), while the spec's order would forward-fill it with
10. -/
theorem C3_counterexample :
    imputeThenSort [⟨2, Cell.null⟩, ⟨1, Cell.num 10⟩, ⟨3, Cell.num 20⟩, ⟨4, Cell.num 30⟩,
        ⟨5, Cell.null⟩] ≠
      sortThenImpute [⟨2, Cell.null⟩, ⟨1, Cell.num 10⟩, ⟨3, Cell.num 20⟩, ⟨4, Cell.num 30⟩,
        ⟨5, Cell.null⟩] := by
  decide

theorem setTemps_map_dt (rows : List ObsRow) : ∀ ts : List Cell,
    (setTemps rows ts).map ObsRow.dt = rows.map ObsRow.dt := by
  induction rows with
  | nil => intro ts; rfl
  | cons r rs ih => intro ts; simp [setTemps, ih]

/-- C3 (amended): the code's impute-then-sort coincides with the spec's
sort-then-impute exactly when the surviving rows already arrive sorted by
timestamp ascending; in general the two differ (see the counterexample). -/
theorem C3_imputation_order_amended (rows : List ObsRow)
    (h : List.Sorted (fun a b : ObsRow => a.dt ≤ b.dt) rows) :
    imputeThenSort rows = sortThenImpute rows := by
  have hsortid : sortObs rows = rows := List.Sorted.insertionSort_eq h
  have hdt : (setTemps rows (imputeCritical (rows.map ObsRow.temp))).map ObsRow.dt =
      rows.map ObsRow.dt := setTemps_map_dt _ _
  have hsorted2 : List.Sorted (fun a b : ObsRow => a.dt ≤ b.dt)
      (setTemps rows (imputeCritical (rows.map ObsRow.temp))) := by
    have h' : List.Pairwise (fun a b : ℚ => a ≤ b) (rows.map ObsRow.dt) :=
      List.pairwise_map.mpr h
    rw [← hdt] at h'
    exact List.pairwise_map.mp h'
  unfold imputeThenSort sortThenImpute sortObs
  rw [List.Sorted.insertionSort_eq hsorted2]
  unfold sortObs at hsortid
  rw [hsortid]

/-- C3 witness: on rows already sorted by timestamp the two orders agree. -/
theorem C3_imputation_order_amended_witness :
    List.Sorted (fun a b : ObsRow => a.dt ≤ b.dt)
        [(⟨1, Cell.num 10⟩ : ObsRow), ⟨2, Cell.null⟩] ∧
      imputeThenSort [(⟨1, Cell.num 10⟩ : ObsRow), ⟨2, Cell.null⟩] =
        sortThenImpute [(⟨1, Cell.num 10⟩ : ObsRow), ⟨2, Cell.null⟩] :=
  ⟨by decide, C3_imputation_order_amended _ (by decide)⟩

-- ===== C2 =====

/-- C2 (counterexample): when two raw columns both match a numeric field's
accepted spelling (here `tempm` and `Temp_M`, both normalizing to `tempm`), the
dict-comprehension `col_mapping` of line 95 resolves the **last** one, not the
first: the claim's first-match rule fails for numeric (and likewise categorical
and event) fields. -/
theorem C2_counterexample :
    colMapping ["tempm", "Temp_M"] (normKey "tempm") = some "Temp_M" ∧
      ("Temp_M" : String) ≠ "tempm" := by
  constructor <;> decide

theorem findDatetimeCol_first : ∀ (cols : List String) (i : ℕ), i < cols.length →
    isDatetimeMatch (cols.getD i "") = true →
    (∀ j, j < i → isDatetimeMatch (cols.getD j "") = false) →
    findDatetimeCol cols = some (cols.getD i "") := by
  intro cols
  induction cols with
  | nil => intro i h; simp at h
  | cons c cs ih =>
    intro i hi hmatch hbefore
    cases i with
    | zero =>
      simpa [findDatetimeCol] using List.find?_cons_of_pos _ (by simpa using hmatch)
    | succ i =>
      have hc : isDatetimeMatch c = false := hbefore 0 (Nat.succ_pos _)
      have : findDatetimeCol (c :: cs) = findDatetimeCol cs := by
        simpa [findDatetimeCol] using List.find?_cons_of_neg _ (by simp [hc])
      rw [this]
      exact ih i (by simpa using hi) (by simpa using hmatch)
        (fun j hj => by simpa using hbefore (j + 1) (by omega))

theorem colMapping_cons_match {c : String} {key : String} (cs : List String)
    (hc : normKey c = key) (hempty : cs.filter (fun x => normKey x == key) = []) :
    colMapping (c :: cs) key = some c := by
  simp [colMapping, List.filter_cons, hc, hempty]

theorem colMapping_cons_of_tail {c : String} {key : String} {cs : List String}
    (hne : cs.filter (fun x => normKey x == key) ≠ []) :
    colMapping (c :: cs) key = colMapping cs key := by
  by_cases hc : normKey c == key
  · have hsome : (cs.filter (fun x => normKey x == key)).getLast?.isSome :=
      List.getLast?_isSome.mpr hne
    cases hgl : (cs.filter (fun x => normKey x == key)).getLast? with
    | none => rw [hgl] at hsome; simp at hsome
    | some x => simp [colMapping, List.filter_cons, hc, List.getLast?_cons, hgl]
  · simp [colMapping, List.filter_cons, hc]

theorem colMapping_last : ∀ (cols : List String) (key : String) (i : ℕ), i < cols.length →
    normKey (cols.getD i "") = key →
    (∀ j, j < cols.length → i < j → normKey (cols.getD j "") ≠ key) →
    colMapping cols key = some (cols.getD i "") := by
  intro cols
  induction cols with
  | nil => intro key i h; simp at h
  | cons c cs ih =>
    intro key i hi hmatch hafter
    cases i with
    | zero =>
      have hempty : cs.filter (fun x => normKey x == key) = [] := by
        rw [List.filter_eq_nil_iff]
        intro a ha
        obtain ⟨j, hj, rfl⟩ := List.mem_iff_getElem.mp ha
        have := hafter (j + 1) (by simpa using hj) (Nat.succ_pos _)
        simp only [List.getD_cons_succ] at this
        rw [List.getD_eq_getElem _ _ hj] at this
        simpa using this
      simpa using colMapping_cons_match cs (by simpa using hmatch) hempty
    | succ i =>
      have hi' : i < cs.length := by simpa using hi
      have hmem : cs.getD i "" ∈ cs := by
        rw [List.getD_eq_getElem _ _ hi']; exact List.getElem_mem _
      have hne : cs.filter (fun x => normKey x == key) ≠ [] := by
        intro hnil
        rw [List.filter_eq_nil_iff] at hnil
        exact hnil _ hmem (by simpa using hmatch)
      rw [colMapping_cons_of_tail hne]
      exact ih key i hi' (by simpa using hmatch)
        (fun j hj hij => by simpa using hafter (j + 1) (by simpa using hj) (by omega))

/-- C2 (amended): resolution order is split.  For the mandatory timestamp field
the loop of lines 51-55 takes the **first** raw column (in declaration order)
matching an accepted variant.  For numeric, categorical and event fields the
lookup goes through the dict comprehension `col_mapping` of line 95, where a
later column with the same normalized key overwrites an earlier one, so the
**last** matching raw column wins and earlier duplicate matches are ignored. -/
theorem C2_resolution_order_amended :
    (∀ (cols : List String) (i : ℕ), i < cols.length →
      isDatetimeMatch (cols.getD i "") = true →
      (∀ j, j < i → isDatetimeMatch (cols.getD j "") = false) →
      findDatetimeCol cols = some (cols.getD i "")) ∧
    (∀ (cols : List String) (key : String) (i : ℕ), i < cols.length →
      normKey (cols.getD i "") = key →
      (∀ j, j < cols.length → i < j → normKey (cols.getD j "") ≠ key) →
      colMapping cols key = some (cols.getD i "")) :=
  ⟨findDatetimeCol_first, colMapping_last⟩

/-- C2 witness: the timestamp resolver picks the first match; `col_mapping`
picks the last match. -/
theorem C2_resolution_order_amended_witness :
    findDatetimeCol ["x", "DateTime", "datetime"] = some "DateTime" ∧
      colMapping ["tempm", "Temp_M"] "tempm" = some "Temp_M" :=
  ⟨C2_resolution_order_amended.1 ["x", "DateTime", "datetime"] 1 (by decide) (by decide)
      (by decide),
    C2_resolution_order_amended.2 ["tempm", "Temp_M"] "tempm" 1 (by decide) (by decide)
      (by decide)⟩

-- ===== C8 =====

/-- C8: the Imputer's median (pandas `Series.median`, modelled by `pandasMedian`)
and the Query Service's median (hand-rolled over SQL-sorted values, modelled by
`queryMedian`) agree on every list of non-null values — the pandas median equals
the query median of the ascending-sorted list — and both give the middle value
for an odd count (`[1,2,3] → 2`) and the mean of the two middle values for an
even count (`[1,2,3,4] → 5/2`). -/
theorem C8_median_agreement :
    (∀ l : List ℚ, pandasMedian l = queryMedian (sortQ l)) ∧
    pandasMedian [1, 2, 3] = some 2 ∧ queryMedian [1, 2, 3] = some 2 ∧
    pandasMedian [1, 2, 3, 4] = some (5 / 2) ∧ queryMedian [1, 2, 3, 4] = some (5 / 2) := by
  refine ⟨?_, by decide, by decide, ?_, ?_⟩
  · intro l
    by_cases hnil : sortQ l = []
    · simp [pandasMedian, queryMedian, hnil]
    · have hlen0 : ¬((sortQ l).length = 0) := by simpa [List.length_eq_zero] using hnil
      have hempty : (sortQ l).isEmpty = false := by simpa [List.isEmpty_iff] using hnil
      simp [pandasMedian, queryMedian, hlen0, hempty]
  · norm_num [pandasMedian, sortQ]
  · norm_num [queryMedian]

-- ===== C9 =====

/-- C9: the categorical coercion step (convert to text, strip, collapse
`"nan"`/`""`/`"None"` to null) is idempotent on already-canonicalized cells:
a null cell stays null (its stringification `"nan"`/`"None"` is itself a blank
token), and trimmed non-blank text is returned unchanged. -/
theorem C9_categorical_idempotent (c : Cell)
    (h : c = Cell.null ∨ ∃ s, c = Cell.str s ∧ pyStrip s = s ∧ s ∉ blankTokens) :
    coerceCategoricalCell c = c := by
  rcases h with rfl | ⟨s, rfl, hstrip, hmem⟩
  · decide
  · simp only [coerceCategoricalCell, pyStr, hstrip]
    rw [if_neg]
    simpa using hmem

/-- C9 witness: re-coercing the canonical cells `"Haze"` and null changes
nothing. -/
theorem C9_categorical_idempotent_witness :
    coerceCategoricalCell (Cell.str "Haze") = Cell.str "Haze" ∧
      coerceCategoricalCell Cell.null = Cell.null :=
  ⟨C9_categorical_idempotent _ (Or.inr ⟨"Haze", rfl, by decide, by decide⟩),
    C9_categorical_idempotent _ (Or.inl rfl)⟩

-- ===== C10 =====

theorem find?_map_pair_of_mem {l : List String} {k : String} (g : String → Cell)
    (hk : k ∈ l) :
    (l.map (fun k => (k, g k))).find? (fun p => p.1 == k) = some (k, g k) := by
  induction l with
  | nil => simp at hk
  | cons c cs ih =>
    by_cases hc : c = k
    · subst hc; simp [List.find?_cons]
    · have : k ∈ cs := by
        rcases List.mem_cons.mp hk with h | h
        · exact absurd h.symm hc
        · exact h
      simpa [List.find?_cons, hc] using ih this

theorem find?_map_pair_of_not_mem {l : List String} {k : String} (g : String → Cell)
    (hk : k ∉ l) :
    (l.map (fun k => (k, g k))).find? (fun p => p.1 == k) = none := by
  induction l with
  | nil => rfl
  | cons c cs ih =>
    have hc : c ≠ k := fun h => hk (h ▸ List.mem_cons_self c cs)
    have : k ∉ cs := fun h => hk (List.mem_cons_of_mem _ h)
    simpa [List.find?_cons, hc] using ih this

/-- C10: the Store's row construction is total on rows with missing fields —
every nullable canonical field absent from the row is persisted as null, and
every event flag absent from the row is persisted as `0` (the `row.get(key, 0)`
default). -/
theorem C10_store_missing_fields (r : SRow) (k : String) :
    (k ∈ storeNullableFields → rowGet? r k = none →
      rowGet? (storeRecord r) k = some Cell.null) ∧
    (k ∈ storeEventFields → rowGet? r k = none →
      rowGet? (storeRecord r) k = some (Cell.num 0)) := by
  constructor
  · intro hmem habs
    have hval : storedValue r k = Cell.null := by
      have hcell : pyGetCell r k = Cell.null := by simp [pyGetCell, habs]
      by_cases h1 : k = "datetime_utc"
      · subst h1; simp [storedValue, hcell]
      · by_cases h2 : k = "date"
        · subst h2; simp [storedValue, hcell]
        · simp [storedValue, h1, h2, hcell]
    have hfind := find?_map_pair_of_mem (fun k => storedValue r k) hmem
    unfold storeRecord
    rw [rowGet?, List.find?_append, hfind]
    simp [hval]
  · intro hmem habs
    have hnotnull : k ∉ storeNullableFields := by
      have hdisj : ∀ x ∈ storeEventFields, x ∉ storeNullableFields := by decide
      exact hdisj k hmem
    have hnone := find?_map_pair_of_not_mem (fun k => storedValue r k) hnotnull
    have hfind := find?_map_pair_of_mem (fun k => (rowGet? r k).getD (Cell.num 0)) hmem
    unfold storeRecord
    rw [rowGet?, List.find?_append, hnone, hfind]
    simp [habs]

/-- C10 witness: storing an empty row persists null for `temperature` and `0`
for `fog_event`. -/
theorem C10_store_missing_fields_witness :
    rowGet? (storeRecord []) "temperature" = some Cell.null ∧
      rowGet? (storeRecord []) "fog_event" = some (Cell.num 0) :=
  ⟨(C10_store_missing_fields [] "temperature").1 (by decide) (by decide),
    (C10_store_missing_fields [] "fog_event").2 (by decide) (by decide)⟩

-- ===== C7 =====

/-- C7: when no raw column name matches any accepted spelling of the timestamp
field, the pipeline fails immediately with the schema error (the
`ValueError` of line 59) — before any parsing, coercion, imputation or sorting —
and returns no canonical frame, so nothing can be stored. -/
theorem C7_schema_error (df : Frame)
    (h : ∀ c ∈ df.cols, isDatetimeMatch c = false) :
    cleanAndTransform df = .error .schemaError := by
  have hfind : findDatetimeCol df.cols = none := by
    rw [findDatetimeCol, List.find?_eq_none]
    intro x hx
    simp [h x hx]
  simp [cleanAndTransform, hfind]

/-- C7 witness: a frame whose only columns are `temp` and `hum` raises the
schema error. -/
theorem C7_schema_error_witness :
    cleanAndTransform ⟨["temp", "hum"], [[Cell.num 1, Cell.num 2]]⟩ = .error .schemaError :=
  C7_schema_error _ (by decide)

-- ===== Frame infrastructure =====

theorem zipCells_length (g : List Cell → Cell → List Cell) :
    ∀ (rs : List (List Cell)) (cs : List Cell), (zipCells g rs cs).length = rs.length := by
  intro rs
  induction rs with
  | nil => intro cs; rfl
  | cons r rs ih => intro cs; simp [zipCells, ih]

theorem setCol_rows_length (f : Frame) (n : String) (cs : List Cell) :
    (f.setCol n cs).rows.length = f.rows.length := by
  unfold Frame.setCol
  cases colIdx f.cols n <;> simp [zipCells_length]

theorem setCol_cols (f : Frame) (n : String) (cs : List Cell) :
    (f.setCol n cs).cols = addCol f.cols n := by
  unfold Frame.setCol addCol
  cases colIdx f.cols n <;> rfl

theorem colIdx_lt_length : ∀ (cols : List String) (n : String) (i : ℕ),
    colIdx cols n = some i → i < cols.length := by
  intro cols
  induction cols with
  | nil => intro n i h; simp [colIdx] at h
  | cons c cs ih =>
    intro n i h
    by_cases hc : c = n
    · simp only [colIdx, hc, if_true, Option.some.injEq] at h
      subst h; simp
    · simp only [colIdx, hc, if_false, Option.map_eq_some'] at h
      obtain ⟨j, hj, rfl⟩ := h
      have := ih n j hj
      simp; omega

theorem colIdx_get : ∀ (cols : List String) (n : String) (i : ℕ),
    colIdx cols n = some i → cols.getD i "" = n := by
  intro cols
  induction cols with
  | nil => intro n i h; simp [colIdx] at h
  | cons c cs ih =>
    intro n i h
    by_cases hc : c = n
    · simp [colIdx, hc] at h; subst h; simpa using hc
    · simp only [colIdx, hc, if_false, Option.map_eq_some'] at h
      obtain ⟨j, hj, rfl⟩ := h
      simpa using ih n j hj

theorem colIdx_append_of_some : ∀ (cols : List String) (extra : List String) (n : String) (i : ℕ),
    colIdx cols n = some i → colIdx (cols ++ extra) n = some i := by
  intro cols
  induction cols with
  | nil => intro extra n i h; simp [colIdx] at h
  | cons c cs ih =>
    intro extra n i h
    by_cases hc : c = n
    · simp [colIdx, hc] at h ⊢; omega
    · simp only [colIdx, hc, if_false, Option.map_eq_some'] at h
      obtain ⟨j, hj, rfl⟩ := h
      simp only [List.cons_append, colIdx, hc, if_false, List.append_eq, ih extra n j hj,
        Option.map_some']

theorem colIdx_append_self : ∀ (cols : List String) (n : String),
    colIdx cols n = none → colIdx (cols ++ [n]) n = some cols.length := by
  intro cols
  induction cols with
  | nil => intro n _; simp [colIdx]
  | cons c cs ih =>
    intro n h
    by_cases hc : c = n
    · simp [colIdx, hc] at h
    · simp only [colIdx, hc, if_false, Option.map_eq_none'] at h
      simp only [List.cons_append, colIdx, hc, if_false, List.append_eq, ih n h,
        Option.map_some', List.length_cons]

theorem colIdx_append_of_ne : ∀ (cols : List String) (m n : String), m ≠ n →
    colIdx (cols ++ [m]) n = colIdx cols n := by
  intro cols
  induction cols with
  | nil => intro m n h; simp [colIdx, h]
  | cons c cs ih =>
    intro m n h
    by_cases hc : c = n
    · simp [colIdx, hc]
    · simp [colIdx, hc, ih m n h]

theorem mem_zipCells {g : List Cell → Cell → List Cell} :
    ∀ {rs : List (List Cell)} {cs : List Cell} {r : List Cell},
    r ∈ zipCells g rs cs → ∃ r₀ ∈ rs, ∃ c, r = g r₀ c := by
  intro rs
  induction rs with
  | nil => intro cs r h; simp [zipCells] at h
  | cons r₀ rs ih =>
    intro cs r h
    rcases List.mem_cons.mp h with h | h
    · exact ⟨r₀, List.mem_cons_self _ _, _, h⟩
    · obtain ⟨r₁, hr₁, c, rfl⟩ := ih h
      exact ⟨r₁, List.mem_cons_of_mem _ hr₁, c, rfl⟩

theorem setCol_WF {f : Frame} (hwf : f.WF) (n : String) {cs : List Cell} :
    (f.setCol n cs).WF := by
  unfold Frame.setCol
  cases hidx : colIdx f.cols n with
  | some i =>
    intro r hr
    simp only at hr
    obtain ⟨r₀, hr₀, c, rfl⟩ := mem_zipCells hr
    simp [hwf r₀ hr₀]
  | none =>
    intro r hr
    simp only at hr
    obtain ⟨r₀, hr₀, c, rfl⟩ := mem_zipCells hr
    simp [hwf r₀ hr₀]


theorem getD_set_self (r : List Cell) (i : ℕ) (c d : Cell) (h : i < r.length) :
    (r.set i c).getD i d = c := by
  rw [List.getD_eq_getElem?_getD, List.getElem?_set_self h]; rfl

theorem getD_set_ne (r : List Cell) (i j : ℕ) (c d : Cell) (h : i ≠ j) :
    (r.set i c).getD j d = r.getD j d := by
  rw [List.getD_eq_getElem?_getD, List.getElem?_set_ne h, ← List.getD_eq_getElem?_getD]

theorem getD_append_left (r : List Cell) (c d : Cell) (j : ℕ) (h : j < r.length) :
    (r ++ [c]).getD j d = r.getD j d := by
  rw [List.getD_eq_getElem?_getD, List.getElem?_append_left h, ← List.getD_eq_getElem?_getD]

theorem getD_append_length (r : List Cell) (c d : Cell) :
    (r ++ [c]).getD r.length d = c := by
  rw [List.getD_eq_getElem?_getD, List.getElem?_concat_length]; rfl

theorem zipCells_set_map_getD (i : ℕ) :
    ∀ (rs : List (List Cell)) (cs : List Cell), (∀ r ∈ rs, i < r.length) →
    cs.length = rs.length →
    (zipCells (fun r c => r.set i c) rs cs).map (fun r => r.getD i Cell.null) = cs := by
  intro rs
  induction rs with
  | nil => intro cs _ hlen; simp at hlen; simp [zipCells, hlen]
  | cons r₀ rs ih =>
    intro cs hb hlen
    cases cs with
    | nil => simp at hlen
    | cons c₀ cs =>
      simp only [zipCells, List.headD, List.tail, List.map_cons]
      rw [getD_set_self _ _ _ _ (hb r₀ (List.mem_cons_self _ _))]
      rw [ih cs (fun r hr => hb r (List.mem_cons_of_mem _ hr)) (by simpa using hlen)]

theorem zipCells_set_map_getD_ne (i j : ℕ) (hne : i ≠ j) :
    ∀ (rs : List (List Cell)) (cs : List Cell),
    (zipCells (fun r c => r.set i c) rs cs).map (fun r => r.getD j Cell.null) =
      rs.map (fun r => r.getD j Cell.null) := by
  intro rs
  induction rs with
  | nil => intro cs; rfl
  | cons r₀ rs ih =>
    intro cs
    simp only [zipCells, List.map_cons]
    rw [getD_set_ne _ _ _ _ _ hne, ih]

theorem zipCells_append_map_getD (L : ℕ) :
    ∀ (rs : List (List Cell)) (cs : List Cell), (∀ r ∈ rs, r.length = L) →
    cs.length = rs.length →
    (zipCells (fun r c => r ++ [c]) rs cs).map (fun r => r.getD L Cell.null) = cs := by
  intro rs
  induction rs with
  | nil => intro cs _ hlen; simp at hlen; simp [zipCells, hlen]
  | cons r₀ rs ih =>
    intro cs hb hlen
    cases cs with
    | nil => simp at hlen
    | cons c₀ cs =>
      simp only [zipCells, List.headD, List.tail, List.map_cons]
      have h₀ : r₀.length = L := hb r₀ (List.mem_cons_self _ _)
      have hhead : (r₀ ++ [c₀]).getD L Cell.null = c₀ := by
        rw [← h₀]; exact getD_append_length r₀ c₀ _
      rw [hhead, ih cs (fun r hr => hb r (List.mem_cons_of_mem _ hr)) (by simpa using hlen)]

theorem zipCells_append_map_getD_lt (L j : ℕ) (hj : j < L) :
    ∀ (rs : List (List Cell)) (cs : List Cell), (∀ r ∈ rs, r.length = L) →
    (zipCells (fun r c => r ++ [c]) rs cs).map (fun r => r.getD j Cell.null) =
      rs.map (fun r => r.getD j Cell.null) := by
  intro rs
  induction rs with
  | nil => intro cs _; rfl
  | cons r₀ rs ih =>
    intro cs hb
    simp only [zipCells, List.map_cons]
    have h₀ : r₀.length = L := hb r₀ (List.mem_cons_self _ _)
    rw [getD_append_left _ _ _ _ (by omega)]
    rw [ih _ (fun r hr => hb r (List.mem_cons_of_mem _ hr))]

theorem getCol?_length {f : Frame} {n : String} {l : List Cell}
    (h : f.getCol? n = some l) : l.length = f.rows.length := by
  unfold Frame.getCol? at h
  cases hidx : colIdx f.cols n with
  | none => rw [hidx] at h; simp at h
  | some i => rw [hidx] at h; simp only [Option.map_some', Option.some.injEq] at h; simp [← h]

theorem getCol?_setCol_same {f : Frame} (hwf : f.WF) {n : String} {cs : List Cell}
    (hlen : cs.length = f.rows.length) :
    (f.setCol n cs).getCol? n = some cs := by
  unfold Frame.setCol Frame.getCol?
  cases hidx : colIdx f.cols n with
  | some i =>
    simp only [hidx, Option.map_some', Option.some.injEq]
    have hb : ∀ r ∈ f.rows, i < r.length := by
      intro r hr
      rw [hwf r hr]
      exact colIdx_lt_length _ _ _ hidx
    exact zipCells_set_map_getD i f.rows cs hb hlen
  | none =>
    simp only [colIdx_append_self _ _ hidx, Option.map_some', Option.some.injEq]
    exact zipCells_append_map_getD _ f.rows cs (fun r hr => hwf r hr) hlen

theorem getCol?_setCol_ne {f : Frame} (hwf : f.WF) {n m : String} {cs : List Cell}
    (hne : m ≠ n) :
    (f.setCol n cs).getCol? m = f.getCol? m := by
  unfold Frame.setCol Frame.getCol?
  cases hidx : colIdx f.cols n with
  | some i =>
    simp only
    cases hm : colIdx f.cols m with
    | none => simp
    | some j =>
      have hij : i ≠ j := by
        intro h
        subst h
        have h1 := colIdx_get _ _ _ hidx
        have h2 := colIdx_get _ _ _ hm
        exact hne (h2 ▸ h1 ▸ rfl)
      simp only [Option.map_some', Option.some.injEq]
      exact zipCells_set_map_getD_ne i j hij f.rows cs
  | none =>
    simp only [colIdx_append_of_ne _ _ _ (Ne.symm hne)]
    cases hm : colIdx f.cols m with
    | none => simp
    | some j =>
      simp only [Option.map_some', Option.some.injEq]
      have hjlt : j < f.cols.length := colIdx_lt_length _ _ _ hm
      exact zipCells_append_map_getD_lt f.cols.length j hjlt f.rows cs (fun r hr => hwf r hr)

theorem colIdx_addCol_of_ne (cols : List String) (n m : String) (hne : m ≠ n) :
    colIdx (addCol cols n) m = colIdx cols m := by
  unfold addCol
  cases colIdx cols n with
  | some i => rfl
  | none => exact colIdx_append_of_ne _ _ _ (Ne.symm hne)

theorem colIdx_addCol_isSome (cols : List String) (n m : String)
    (h : (colIdx cols m).isSome) : (colIdx (addCol cols n) m).isSome := by
  unfold addCol
  cases hn : colIdx cols n with
  | some i => exact h
  | none =>
      cases hm : colIdx cols m with
      | none => rw [hm] at h; simp at h
      | some j => rw [colIdx_append_of_some _ _ _ _ hm]; rfl

-- ===== coerceStage lemmas =====

theorem coerceStage_cons (coe : Cell → Cell) (keyed : List String) (p : String × String)
    (ps : List (String × String)) (f : Frame) :
    coerceStage coe (p :: ps) keyed f =
      coerceStage coe ps keyed
        (match colMapping keyed (normKey p.1) with
         | some actual => f.setCol p.2 (((f.getCol? actual).getD []).map coe)
         | none => f) := rfl

theorem coerceStage_rows_length (coe : Cell → Cell) (keyed : List String) :
    ∀ (ms : List (String × String)) (f : Frame),
    (coerceStage coe ms keyed f).rows.length = f.rows.length := by
  intro ms
  induction ms with
  | nil => intro f; rfl
  | cons p ps ih =>
    intro f
    rw [coerceStage_cons]
    cases colMapping keyed (normKey p.1) with
    | none => exact ih f
    | some actual => rw [ih, setCol_rows_length]

theorem coerceStage_WF (coe : Cell → Cell) (keyed : List String) :
    ∀ (ms : List (String × String)) {f : Frame}, f.WF →
    (coerceStage coe ms keyed f).WF := by
  intro ms
  induction ms with
  | nil => intro f hwf; exact hwf
  | cons p ps ih =>
    intro f hwf
    rw [coerceStage_cons]
    cases colMapping keyed (normKey p.1) with
    | none => exact ih hwf
    | some actual => exact ih (setCol_WF hwf _)

theorem coerceStage_getCol?_ne (coe : Cell → Cell) (keyed : List String) :
    ∀ (ms : List (String × String)) {f : Frame} {n : String}, f.WF →
    (∀ p ∈ ms, p.2 ≠ n) →
    (coerceStage coe ms keyed f).getCol? n = f.getCol? n := by
  intro ms
  induction ms with
  | nil => intro f n _ _; rfl
  | cons p ps ih =>
    intro f n hwf hne
    rw [coerceStage_cons]
    cases colMapping keyed (normKey p.1) with
    | none => exact ih hwf (fun q hq => hne q (List.mem_cons_of_mem _ hq))
    | some actual =>
        rw [ih (setCol_WF hwf _) (fun q hq => hne q (List.mem_cons_of_mem _ hq))]
        exact getCol?_setCol_ne hwf (Ne.symm (hne p (List.mem_cons_self _ _)))

theorem coerceStage_colIdx_none (coe : Cell → Cell) (keyed : List String) :
    ∀ (ms : List (String × String)) {f : Frame} {n : String},
    (∀ p ∈ ms, p.2 = n → colMapping keyed (normKey p.1) = none) →
    colIdx f.cols n = none →
    colIdx (coerceStage coe ms keyed f).cols n = none := by
  intro ms
  induction ms with
  | nil => intro f n _ h; exact h
  | cons p ps ih =>
    intro f n hskip hnone
    rw [coerceStage_cons]
    cases hcm : colMapping keyed (normKey p.1) with
    | none => exact ih (fun q hq => hskip q (List.mem_cons_of_mem _ hq)) hnone
    | some actual =>
        refine ih (fun q hq => hskip q (List.mem_cons_of_mem _ hq)) ?_
        have hp2 : p.2 ≠ n := by
          intro h
          rw [hskip p (List.mem_cons_self _ _) h] at hcm
          exact Option.noConfusion hcm
        rw [setCol_cols, colIdx_addCol_of_ne _ _ _ (Ne.symm hp2)]
        exact hnone

theorem coerceStage_colIdx_isSome (coe : Cell → Cell) (keyed : List String) :
    ∀ (ms : List (String × String)) {f : Frame} {n : String},
    (colIdx f.cols n).isSome →
    (colIdx (coerceStage coe ms keyed f).cols n).isSome := by
  intro ms
  induction ms with
  | nil => intro f n h; exact h
  | cons p ps ih =>
    intro f n hsome
    rw [coerceStage_cons]
    cases colMapping keyed (normKey p.1) with
    | none => exact ih hsome
    | some actual =>
        refine ih ?_
        rw [setCol_cols]
        exact colIdx_addCol_isSome _ _ _ hsome

-- ===== imputeStage lemmas =====

theorem imputeStage_cons (imp : List Cell → List Cell) (col : String) (names : List String)
    (f : Frame) :
    imputeStage imp (col :: names) f =
      imputeStage imp names
        (match f.getCol? col with
         | some cells =>
             if 0 < (cells.filter isNull).length then f.setCol col (imp cells) else f
         | none => f) := rfl

theorem imputeStage_rows_length (imp : List Cell → List Cell) :
    ∀ (names : List String) (f : Frame),
    (imputeStage imp names f).rows.length = f.rows.length := by
  intro names
  induction names with
  | nil => intro f; rfl
  | cons col names ih =>
    intro f
    rw [imputeStage_cons]
    cases f.getCol? col with
    | none => exact ih f
    | some cells =>
        by_cases hmiss : 0 < (cells.filter isNull).length
        · simp only [hmiss, if_true]; rw [ih, setCol_rows_length]
        · simp only [hmiss, if_false]; exact ih f

theorem imputeStage_WF (imp : List Cell → List Cell) :
    ∀ (names : List String) {f : Frame}, f.WF → (imputeStage imp names f).WF := by
  intro names
  induction names with
  | nil => intro f hwf; exact hwf
  | cons col names ih =>
    intro f hwf
    rw [imputeStage_cons]
    cases f.getCol? col with
    | none => exact ih hwf
    | some cells =>
        by_cases hmiss : 0 < (cells.filter isNull).length
        · simp only [hmiss, if_true]; exact ih (setCol_WF hwf _)
        · simp only [hmiss, if_false]; exact ih hwf

theorem imputeStage_getCol?_ne (imp : List Cell → List Cell) :
    ∀ (names : List String) {f : Frame} {n : String}, f.WF →
    (∀ m ∈ names, m ≠ n) →
    (imputeStage imp names f).getCol? n = f.getCol? n := by
  intro names
  induction names with
  | nil => intro f n _ _; rfl
  | cons col names ih =>
    intro f n hwf hne
    rw [imputeStage_cons]
    cases f.getCol? col with
    | none => exact ih hwf (fun m hm => hne m (List.mem_cons_of_mem _ hm))
    | some cells =>
        by_cases hmiss : 0 < (cells.filter isNull).length
        · simp only [hmiss, if_true]
          rw [ih (setCol_WF hwf _) (fun m hm => hne m (List.mem_cons_of_mem _ hm))]
          exact getCol?_setCol_ne hwf (Ne.symm (hne col (List.mem_cons_self _ _)))
        · simp only [hmiss, if_false]
          exact ih hwf (fun m hm => hne m (List.mem_cons_of_mem _ hm))

theorem imputeStage_colIdx_none (imp : List Cell → List Cell) :
    ∀ (names : List String) {f : Frame} {n : String},
    colIdx f.cols n = none →
    colIdx (imputeStage imp names f).cols n = none := by
  intro names
  induction names with
  | nil => intro f n h; exact h
  | cons col names ih =>
    intro f n hnone
    rw [imputeStage_cons]
    by_cases hcol : col = n
    · subst hcol
      have : f.getCol? col = none := by simp [Frame.getCol?, hnone]
      rw [this]
      exact ih hnone
    · cases f.getCol? col with
      | none => exact ih hnone
      | some cells =>
          by_cases hmiss : 0 < (cells.filter isNull).length
          · simp only [hmiss, if_true]
            refine ih ?_
            rw [setCol_cols, colIdx_addCol_of_ne _ _ _ (Ne.symm hcol)]
            exact hnone
          · simp only [hmiss, if_false]; exact ih hnone

-- ===== dropInvalidDates and sortByDatetime lemmas =====

theorem dropInvalidDates_cols (f : Frame) : (dropInvalidDates f).cols = f.cols := by
  unfold dropInvalidDates
  cases colIdx f.cols "datetime_utc" <;> rfl

theorem dropInvalidDates_WF {f : Frame} (hwf : f.WF) : (dropInvalidDates f).WF := by
  unfold dropInvalidDates
  cases colIdx f.cols "datetime_utc" with
  | none => exact hwf
  | some i =>
      intro r hr
      exact hwf r (List.mem_of_mem_filter hr)

theorem sortByDatetime_cols (f : Frame) : (sortByDatetime f).cols = f.cols := by
  unfold sortByDatetime
  cases colIdx f.cols "datetime_utc" <;> rfl

theorem sortByDatetime_WF {f : Frame} (hwf : f.WF) : (sortByDatetime f).WF := by
  unfold sortByDatetime
  cases hidx : colIdx f.cols "datetime_utc" with
  | none => exact hwf
  | some i =>
      intro r hr
      exact hwf r ((List.mem_insertionSort _).mp hr)

theorem sortByDatetime_rows_length (f : Frame) :
    (sortByDatetime f).rows.length = f.rows.length := by
  unfold sortByDatetime
  cases colIdx f.cols "datetime_utc" with
  | none => rfl
  | some i => simp [List.length_insertionSort]

theorem getCol?_mem_of_mem {f : Frame} {n : String} {l : List Cell}
    (h : f.getCol? n = some l) :
    ∀ c ∈ l, ∃ r ∈ f.rows, c = r.getD ((colIdx f.cols n).getD 0) Cell.null := by
  unfold Frame.getCol? at h
  cases hidx : colIdx f.cols n with
  | none => rw [hidx] at h; simp at h
  | some i =>
      rw [hidx] at h
      simp only [Option.map_some', Option.some.injEq] at h
      intro c hc
      rw [← h] at hc
      obtain ⟨r, hr, rfl⟩ := List.mem_map.mp hc
      exact ⟨r, hr, by simp [hidx]⟩

theorem dropInvalidDates_getCol?_subset {f : Frame} {n : String} {l : List Cell}
    (h : f.getCol? n = some l) :
    ∃ l', (dropInvalidDates f).getCol? n = some l' ∧ ∀ c ∈ l', c ∈ l := by
  unfold dropInvalidDates
  cases hdt : colIdx f.cols "datetime_utc" with
  | none => exact ⟨l, h, fun c hc => hc⟩
  | some i =>
      unfold Frame.getCol? at h ⊢
      cases hidx : colIdx f.cols n with
      | none => rw [hidx] at h; simp at h
      | some j =>
          rw [hidx] at h
          simp only [Option.map_some', Option.some.injEq] at h
          refine ⟨_, rfl, ?_⟩
          intro c hc
          simp only at hc
          obtain ⟨r, hr, rfl⟩ := List.mem_map.mp hc
          rw [← h]
          exact List.mem_map.mpr ⟨r, List.mem_of_mem_filter hr, rfl⟩

theorem sortByDatetime_getCol?_subset {f : Frame} {n : String} {l : List Cell}
    (h : f.getCol? n = some l) :
    ∃ l', (sortByDatetime f).getCol? n = some l' ∧ ∀ c ∈ l', c ∈ l := by
  unfold sortByDatetime
  cases hdt : colIdx f.cols "datetime_utc" with
  | none => exact ⟨l, h, fun c hc => hc⟩
  | some i =>
      unfold Frame.getCol? at h ⊢
      cases hidx : colIdx f.cols n with
      | none => rw [hidx] at h; simp at h
      | some j =>
          rw [hidx] at h
          simp only [Option.map_some', Option.some.injEq] at h
          refine ⟨_, rfl, ?_⟩
          intro c hc
          simp only at hc
          obtain ⟨r, hr, rfl⟩ := List.mem_map.mp hc
          rw [← h]
          exact List.mem_map.mpr ⟨r, (List.mem_insertionSort _).mp hr, rfl⟩

-- ===== eventStage lemmas =====

theorem colMapping_spec {cols : List String} {key a : String}
    (h : colMapping cols key = some a) : normKey a = key ∧ a ∈ cols := by
  unfold colMapping at h
  have hmem := List.mem_of_getLast?_eq_some h
  exact ⟨by simpa using List.of_mem_filter hmem, List.mem_of_mem_filter hmem⟩

theorem colMapping_eq_none {cols : List String} {key : String}
    (h : ∀ a ∈ cols, normKey a ≠ key) : colMapping cols key = none := by
  unfold colMapping
  have : cols.filter (fun c => normKey c == key) = [] := by
    rw [List.filter_eq_nil_iff]
    intro a ha
    simpa using h a ha
  rw [this]
  rfl

theorem mapM_option_of_isSome {α β : Type} (g : α → Option β) :
    ∀ (l : List α), (∀ a ∈ l, (g a).isSome = true) →
    ∃ bs, l.mapM g = some bs ∧ bs.length = l.length := by
  intro l
  induction l with
  | nil => intro _; exact ⟨[], rfl, rfl⟩
  | cons a l ih =>
      intro h
      obtain ⟨b, hb⟩ := Option.isSome_iff_exists.mp (h a (List.mem_cons_self _ _))
      obtain ⟨bs, hbs, hlen⟩ := ih (fun x hx => h x (List.mem_cons_of_mem _ hx))
      exact ⟨b :: bs, by rw [List.mapM_cons, hb, hbs]; rfl, by simp [hlen]⟩

theorem colIdx_isSome_of_mem : ∀ (cols : List String) (n : String), n ∈ cols →
    (colIdx cols n).isSome = true := by
  intro cols
  induction cols with
  | nil => intro n h; simp at h
  | cons c cs ih =>
      intro n h
      by_cases hc : c = n
      · simp [colIdx, hc]
      · rcases List.mem_cons.mp h with h | h
        · exact absurd h.symm hc
        · simp only [colIdx, hc, if_false]
          have hih := ih n h
          cases hcs : colIdx cs n with
          | none => rw [hcs] at hih; simp at hih
          | some j => simp

theorem getCol?_of_colIdx_isSome {f : Frame} {n : String}
    (h : (colIdx f.cols n).isSome = true) :
    ∃ l, f.getCol? n = some l ∧ l.length = f.rows.length := by
  cases hidx : colIdx f.cols n with
  | none => rw [hidx] at h; simp at h
  | some i =>
      refine ⟨f.rows.map (fun r => r.getD i Cell.null), ?_, by simp⟩
      unfold Frame.getCol?
      rw [hidx]
      rfl

theorem booleanColumns_event_key_ne :
    ∀ a ∈ booleanColumns, ∀ b ∈ booleanColumns, normKey (b ++ "_event") ≠ strToLower a := by
  decide

theorem eventStage_fold_spec (keyed : List String) :
    ∀ (bs : List String) (acc : Frame),
    acc.WF →
    (∀ col ∈ bs, col ∈ booleanColumns) →
    (bs.map (fun e => e ++ "_event")).Nodup →
    (∀ col ∈ bs, ∀ actual, colMapping keyed (strToLower col) = some actual →
      ((colIdx acc.cols actual).isSome = true ∧
        ∀ c ∈ (acc.getCol? actual).getD [], (intOfCell? c).isSome = true)) →
    ∃ out, bs.foldlM (eventStep keyed) acc = some out ∧ out.WF ∧
      out.rows.length = acc.rows.length ∧
      (∀ n, (∀ e ∈ bs, n ≠ e ++ "_event") → out.getCol? n = acc.getCol? n) ∧
      (∀ n, (∀ e ∈ bs, n ≠ e ++ "_event") → colIdx acc.cols n = none →
        colIdx out.cols n = none) ∧
      (∀ e ∈ bs, ∃ cells, out.getCol? (e ++ "_event") = some cells ∧
        (∀ c ∈ cells, ∃ k : ℤ, c = intCell k) ∧
        (colMapping keyed (strToLower e) = none → ∀ c ∈ cells, c = Cell.num 0)) := by
  intro bs
  induction bs with
  | nil =>
      intro acc hwf _ _ _
      exact ⟨acc, rfl, hwf, rfl, fun n _ => rfl, fun n _ h => h, fun e he => absurd he (by simp)⟩
  | cons col bs ih =>
      intro acc hwf hsub hnodup hres
      have hcolb : col ∈ booleanColumns := hsub col (List.mem_cons_self _ _)
      -- the cells written for `col` and the next accumulator
      obtain ⟨written, hstep, hwlen, hwint, hwzero⟩ :
          ∃ written, eventStep keyed acc col =
              some (acc.setCol (col ++ "_event") written) ∧
            written.length = acc.rows.length ∧
            (∀ c ∈ written, ∃ k : ℤ, c = intCell k) ∧
            (colMapping keyed (strToLower col) = none → ∀ c ∈ written, c = Cell.num 0) := by
        cases hcm : colMapping keyed (strToLower col) with
        | none =>
            refine ⟨List.replicate acc.rows.length (Cell.num 0), ?_, by simp, ?_, ?_⟩
            · simp [eventStep, hcm]
            · intro c hc
              rw [(List.mem_replicate.mp hc).2]
              exact ⟨0, by norm_num [intCell]⟩
            · intro _ c hc
              exact (List.mem_replicate.mp hc).2
        | some actual =>
            obtain ⟨hpres, hint⟩ := hres col (List.mem_cons_self _ _) actual hcm
            obtain ⟨l, hl, hllen⟩ := getCol?_of_colIdx_isSome hpres
            obtain ⟨ns, hns, hnslen⟩ :=
              mapM_option_of_isSome intOfCell? ((acc.getCol? actual).getD []) hint
            refine ⟨ns.map intCell, ?_, ?_, ?_, ?_⟩
            · simp only [eventStep, hcm, hns, Option.map_some']
            · simp only [List.length_map]
              rw [hnslen, hl]
              simpa using hllen
            · intro c hc
              obtain ⟨k, _, rfl⟩ := List.mem_map.mp hc
              exact ⟨k, rfl⟩
            · intro hnone
              exact absurd hnone (by simp)
      -- facts about the next accumulator
      set acc' := acc.setCol (col ++ "_event") written with hacc'
      have hwf' : acc'.WF := setCol_WF hwf _
      have hne_actual : ∀ col' ∈ bs, ∀ actual',
          colMapping keyed (strToLower col') = some actual' → actual' ≠ col ++ "_event" := by
        intro col' hcol' actual' hcm' heq
        have h1 := (colMapping_spec hcm').1
        rw [heq] at h1
        exact booleanColumns_event_key_ne col' (hsub col' (List.mem_cons_of_mem _ hcol'))
          col hcolb h1
      have hres' : ∀ col' ∈ bs, ∀ actual',
          colMapping keyed (strToLower col') = some actual' →
          ((colIdx acc'.cols actual').isSome = true ∧
            ∀ c ∈ (acc'.getCol? actual').getD [], (intOfCell? c).isSome = true) := by
        intro col' hcol' actual' hcm'
        obtain ⟨hpres, hint⟩ := hres col' (List.mem_cons_of_mem _ hcol') actual' hcm'
        constructor
        · rw [hacc', setCol_cols]
          exact colIdx_addCol_isSome _ _ _ hpres
        · rw [hacc', getCol?_setCol_ne hwf (hne_actual col' hcol' actual' hcm')]
          exact hint
      have hnodup' : (bs.map (fun e => e ++ "_event")).Nodup := by
        rw [List.map_cons] at hnodup
        exact (List.nodup_cons.mp hnodup).2
      obtain ⟨out, hfold, howf, holen, hoget, hoidx, hocontent⟩ :=
        ih acc' hwf' (fun c hc => hsub c (List.mem_cons_of_mem _ hc)) hnodup' hres'
      refine ⟨out, ?_, howf, ?_, ?_, ?_, ?_⟩
      · rw [List.foldlM_cons, hstep]
        exact hfold
      · rw [holen, hacc', setCol_rows_length]
      · intro n hn
        rw [hoget n (fun e he => hn e (List.mem_cons_of_mem _ he)), hacc',
          getCol?_setCol_ne hwf (hn col (List.mem_cons_self _ _))]
      · intro n hn hnone
        refine hoidx n (fun e he => hn e (List.mem_cons_of_mem _ he)) ?_
        rw [hacc', setCol_cols,
          colIdx_addCol_of_ne _ _ _ (hn col (List.mem_cons_self _ _))]
        exact hnone
      · intro e he
        rcases List.mem_cons.mp he with rfl | he'
        · have hnm : (e ++ "_event") ∉ bs.map (fun x => x ++ "_event") := by
            rw [List.map_cons, List.nodup_cons] at hnodup
            exact hnodup.1
          have hnotin : ∀ e' ∈ bs, e ++ "_event" ≠ e' ++ "_event" := by
            intro e' he' heq
            exact hnm (heq ▸ List.mem_map.mpr ⟨e', he', rfl⟩)
          refine ⟨written, ?_, hwint, hwzero⟩
          rw [hoget _ hnotin, hacc', getCol?_setCol_same hwf hwlen]
        · exact hocontent e he'

theorem mapM_some_length {α β : Type} (g : α → Option β) :
    ∀ {l : List α} {bs : List β}, l.mapM g = some bs → bs.length = l.length := by
  intro l
  induction l with
  | nil => intro bs h; simp only [List.mapM_nil, Option.pure_def, Option.some.injEq] at h; simp [← h]
  | cons a l ih =>
      intro bs h
      rw [List.mapM_cons] at h
      cases hg : g a with
      | none => rw [hg] at h; simp at h
      | some b =>
          rw [hg] at h
          cases hm : l.mapM g with
          | none => rw [hm] at h; simp at h
          | some bs' =>
              rw [hm] at h
              simp only [Option.pure_def, Option.bind_eq_bind, Option.some_bind,
                Option.some.injEq] at h
              rw [← h]
              simp [ih hm]

theorem eventStep_some_shape {keyed : List String} {acc : Frame} {col : String} {acc' : Frame}
    (h : eventStep keyed acc col = some acc') :
    ∃ cells, acc' = acc.setCol (col ++ "_event") cells := by
  unfold eventStep at h
  cases hcm : colMapping keyed (strToLower col) with
  | none =>
      simp only [hcm, Option.some.injEq] at h
      exact ⟨_, h.symm⟩
  | some actual =>
      simp only [hcm] at h
      cases hm : ((acc.getCol? actual).getD []).mapM intOfCell? with
      | none => rw [hm] at h; simp at h
      | some ns =>
          rw [hm] at h
          simp only [Option.map_some', Option.some.injEq] at h
          exact ⟨ns.map intCell, h.symm⟩

theorem eventStep_some_detail {keyed : List String} {acc : Frame} {col : String} {acc' : Frame}
    (hpres : ∀ actual, colMapping keyed (strToLower col) = some actual →
      (colIdx acc.cols actual).isSome = true)
    (h : eventStep keyed acc col = some acc') :
    ∃ written, acc' = acc.setCol (col ++ "_event") written ∧
      written.length = acc.rows.length ∧
      (∀ c ∈ written, ∃ k : ℤ, c = intCell k) ∧
      (colMapping keyed (strToLower col) = none → ∀ c ∈ written, c = Cell.num 0) := by
  unfold eventStep at h
  cases hcm : colMapping keyed (strToLower col) with
  | none =>
      simp only [hcm, Option.some.injEq] at h
      refine ⟨_, h.symm, by simp, ?_, ?_⟩
      · intro c hc
        rw [(List.mem_replicate.mp hc).2]
        exact ⟨0, by norm_num [intCell]⟩
      · intro _ c hc
        exact (List.mem_replicate.mp hc).2
  | some actual =>
      simp only [hcm] at h
      cases hm : ((acc.getCol? actual).getD []).mapM intOfCell? with
      | none => rw [hm] at h; simp at h
      | some ns =>
          rw [hm] at h
          simp only [Option.map_some', Option.some.injEq] at h
          obtain ⟨l, hl, hllen⟩ := getCol?_of_colIdx_isSome (hpres actual hcm)
          refine ⟨ns.map intCell, h.symm, ?_, ?_, ?_⟩
          · have := mapM_some_length intOfCell? hm
            rw [hl] at this
            simp only [List.length_map, this, Option.getD_some]
            exact hllen
          · intro c hc
            obtain ⟨k, _, rfl⟩ := List.mem_map.mp hc
            exact ⟨k, rfl⟩
          · intro hnone
            rw [hnone] at hcm
            contradiction

theorem eventStage_some_colIdx_none (keyed : List String) :
    ∀ (bs : List String) {acc out : Frame},
    bs.foldlM (eventStep keyed) acc = some out →
    ∀ n, (∀ e ∈ bs, n ≠ e ++ "_event") → colIdx acc.cols n = none →
    colIdx out.cols n = none := by
  intro bs
  induction bs with
  | nil =>
      intro acc out h n _ hnone
      simp only [List.foldlM_nil, Option.pure_def, Option.some.injEq] at h
      rw [← h]
      exact hnone
  | cons col bs ih =>
      intro acc out h n hn hnone
      rw [List.foldlM_cons] at h
      cases hstep : eventStep keyed acc col with
      | none => rw [hstep] at h; simp at h
      | some acc' =>
          rw [hstep] at h
          simp only [Option.bind_eq_bind, Option.some_bind] at h
          obtain ⟨cells, rfl⟩ := eventStep_some_shape hstep
          refine ih h n (fun e he => hn e (List.mem_cons_of_mem _ he)) ?_
          rw [setCol_cols, colIdx_addCol_of_ne _ _ _ (hn col (List.mem_cons_self _ _))]
          exact hnone

theorem eventStage_some_content (keyed : List String) :
    ∀ (bs : List String) {acc out : Frame},
    acc.WF →
    (∀ col ∈ bs, col ∈ booleanColumns) →
    (bs.map (fun e => e ++ "_event")).Nodup →
    (∀ col ∈ bs, ∀ actual, colMapping keyed (strToLower col) = some actual →
      (colIdx acc.cols actual).isSome = true) →
    bs.foldlM (eventStep keyed) acc = some out →
    out.WF ∧ out.rows.length = acc.rows.length ∧
    (∀ n, (∀ e ∈ bs, n ≠ e ++ "_event") → out.getCol? n = acc.getCol? n) ∧
    (∀ e ∈ bs, ∃ cells, out.getCol? (e ++ "_event") = some cells ∧
      (∀ c ∈ cells, ∃ k : ℤ, c = intCell k) ∧
      (colMapping keyed (strToLower e) = none → ∀ c ∈ cells, c = Cell.num 0)) := by
  intro bs
  induction bs with
  | nil =>
      intro acc out hwf _ _ _ h
      simp only [List.foldlM_nil, Option.pure_def, Option.some.injEq] at h
      subst h
      exact ⟨hwf, rfl, fun n _ => rfl, fun e he => absurd he (by simp)⟩
  | cons col bs ih =>
      intro acc out hwf hsub hnodup hpres h
      have hcolb : col ∈ booleanColumns := hsub col (List.mem_cons_self _ _)
      rw [List.foldlM_cons] at h
      cases hstep : eventStep keyed acc col with
      | none => rw [hstep] at h; simp at h
      | some acc' =>
          rw [hstep] at h
          simp only [Option.bind_eq_bind, Option.some_bind] at h
          obtain ⟨written, rfl, hwlen, hwint, hwzero⟩ :=
            eventStep_some_detail (fun a ha => hpres col (List.mem_cons_self _ _) a ha) hstep
          have hwf' : (acc.setCol (col ++ "_event") written).WF := setCol_WF hwf _
          have hne_actual : ∀ col' ∈ bs, ∀ actual',
              colMapping keyed (strToLower col') = some actual' →
              actual' ≠ col ++ "_event" := by
            intro col' hcol' actual' hcm' heq
            have h1 := (colMapping_spec hcm').1
            rw [heq] at h1
            exact booleanColumns_event_key_ne col'
              (hsub col' (List.mem_cons_of_mem _ hcol')) col hcolb h1
          have hnodup' : (bs.map (fun e => e ++ "_event")).Nodup := by
            rw [List.map_cons] at hnodup
            exact (List.nodup_cons.mp hnodup).2
          have hpres' : ∀ col' ∈ bs, ∀ actual',
              colMapping keyed (strToLower col') = some actual' →
              (colIdx (acc.setCol (col ++ "_event") written).cols actual').isSome = true := by
            intro col' hcol' actual' hcm'
            rw [setCol_cols]
            exact colIdx_addCol_isSome _ _ _
              (hpres col' (List.mem_cons_of_mem _ hcol') actual' hcm')
          obtain ⟨howf, holen, hoget, hocontent⟩ :=
            ih hwf' (fun c hc => hsub c (List.mem_cons_of_mem _ hc)) hnodup' hpres' h
          refine ⟨howf, ?_, ?_, ?_⟩
          · rw [holen, setCol_rows_length]
          · intro n hn
            rw [hoget n (fun e he => hn e (List.mem_cons_of_mem _ he)),
              getCol?_setCol_ne hwf (hn col (List.mem_cons_self _ _))]
          · intro e he
            rcases List.mem_cons.mp he with rfl | he'
            · have hnm : (e ++ "_event") ∉ bs.map (fun x => x ++ "_event") := by
                rw [List.map_cons, List.nodup_cons] at hnodup
                exact hnodup.1
              have hnotin : ∀ e' ∈ bs, e ++ "_event" ≠ e' ++ "_event" := by
                intro e' he' heq
                exact hnm (heq ▸ List.mem_map.mpr ⟨e', he', rfl⟩)
              refine ⟨written, ?_, hwint, hwzero⟩
              rw [hoget _ hnotin, getCol?_setCol_same hwf hwlen]
            · exact hocontent e he'

-- ===== pipeline destructuring =====

theorem cleanAndTransform_ok_elim {df out : Frame}
    (hok : cleanAndTransform df = .ok out) :
    ∃ dtc f4, findDatetimeCol df.cols = some dtc ∧
      ((((df.setCol "datetime_utc"
          (((df.getCol? dtc).getD []).map parseDtCell)).getCol? "datetime_utc").getD
            []).filter (fun c => !(isNull c))).length ≠ 0 ∧
      eventStage (addCol df.cols "datetime_utc")
        (categoricalStage (addCol df.cols "datetime_utc")
          (numericStage (addCol df.cols "datetime_utc")
            (df.setCol "datetime_utc" (((df.getCol? dtc).getD []).map parseDtCell)))) =
          some f4 ∧
      out = sortByDatetime (imputeStage imputeOther otherNumericColumns
        (imputeStage imputeCritical criticalColumns (dropInvalidDates f4))) := by
  unfold cleanAndTransform at hok
  cases hfind : findDatetimeCol df.cols with
  | none => rw [hfind] at hok; exact absurd hok (by simp)
  | some dtc =>
      rw [hfind] at hok
      simp only at hok
      by_cases hvalid :
          ((((df.setCol "datetime_utc"
            (((df.getCol? dtc).getD []).map parseDtCell)).getCol? "datetime_utc").getD
              []).filter (fun c => !(isNull c))).length = 0
      · rw [if_pos hvalid] at hok
        exact absurd hok (by simp)
      · rw [if_neg hvalid] at hok
        rw [setCol_cols] at hok
        cases hev : eventStage (addCol df.cols "datetime_utc")
            (categoricalStage (addCol df.cols "datetime_utc")
              (numericStage (addCol df.cols "datetime_utc")
                (df.setCol "datetime_utc" (((df.getCol? dtc).getD []).map parseDtCell)))) with
        | none => rw [hev] at hok; exact absurd hok (by simp)
        | some f4 =>
            rw [hev] at hok
            simp only [Except.ok.injEq] at hok
            exact ⟨dtc, f4, rfl, hvalid, hev, hok.symm⟩

-- ===== C4 =====

/-- C4 (counterexample): in a dataset with a resolvable timestamp column but no
column for any numeric field, the pipeline succeeds — so the absence of the
field does not raise — but the canonical output contains **no** `temperature`
column at all, rather than an all-null one. -/
theorem C4_counterexample :
    (cleanAndTransform ⟨["datetime"], [[Cell.str "5"]]⟩).map
        (fun out => out.getCol? "temperature") = .ok none := by
  decide

theorem canonicalFieldPairs_inj :
    ∀ p ∈ numericColumnsMap ++ categoricalColumnsMap,
    ∀ q ∈ numericColumnsMap ++ categoricalColumnsMap, p.2 = q.2 → p.1 = q.1 := by
  decide

theorem canonicalField_ne_datetime :
    ∀ p ∈ numericColumnsMap ++ categoricalColumnsMap, p.2 ≠ "datetime_utc" := by
  decide

theorem canonicalField_ne_event :
    ∀ p ∈ numericColumnsMap ++ categoricalColumnsMap, ∀ e ∈ booleanColumns,
    p.2 ≠ e ++ "_event" := by
  decide

/-- C4 (amended): when the pipeline succeeds on a dataset in which a numeric or
categorical logical field resolves to no raw column, the canonical output does
not contain that field at all — no column is created for it (in particular no
all-null column) — and the lack of resolution itself never causes a failure
(the on-miss branch only logs a warning, see the counterexample for a concrete
successful run). -/
theorem C4_unresolved_field_amended (df out : Frame) (fraw fcan : String)
    (hfield : (fraw, fcan) ∈ numericColumnsMap ++ categoricalColumnsMap)
    (hok : cleanAndTransform df = .ok out)
    (hnores : colMapping (addCol df.cols "datetime_utc") (normKey fraw) = none)
    (habsent : colIdx df.cols fcan = none) :
    colIdx out.cols fcan = none := by
  obtain ⟨dtc, f4, hfind, hvalid, hev, hout⟩ := cleanAndTransform_ok_elim hok
  have hfdt : fcan ≠ "datetime_utc" := canonicalField_ne_datetime (fraw, fcan) hfield
  have hskip : ∀ p ∈ numericColumnsMap ++ categoricalColumnsMap, p.2 = fcan →
      colMapping (addCol df.cols "datetime_utc") (normKey p.1) = none := by
    intro p hp hp2
    have : p.1 = fraw := canonicalFieldPairs_inj p hp (fraw, fcan) hfield hp2
    rw [this]
    exact hnores
  have h1 : colIdx (df.setCol "datetime_utc"
      (((df.getCol? dtc).getD []).map parseDtCell)).cols fcan = none := by
    rw [setCol_cols, colIdx_addCol_of_ne _ _ _ hfdt]
    exact habsent
  have h2 := coerceStage_colIdx_none toNumericCell (addCol df.cols "datetime_utc")
    numericColumnsMap
    (fun p hp => hskip p (List.mem_append_left _ hp)) h1
  have h3 := coerceStage_colIdx_none coerceCategoricalCell (addCol df.cols "datetime_utc")
    categoricalColumnsMap
    (fun p hp => hskip p (List.mem_append_right _ hp)) h2
  have h4 := eventStage_some_colIdx_none (addCol df.cols "datetime_utc") booleanColumns hev
    fcan (fun e he => canonicalField_ne_event (fraw, fcan) hfield e he) h3
  have h5 : colIdx (dropInvalidDates f4).cols fcan = none := by
    rw [dropInvalidDates_cols]
    exact h4
  have h6 := imputeStage_colIdx_none imputeCritical criticalColumns h5
  have h7 := imputeStage_colIdx_none imputeOther otherNumericColumns h6
  rw [hout, sortByDatetime_cols]
  exact h7



/-- C4 witness: on a one-column frame the pipeline succeeds and the unresolved
`temperature` field is absent from the output. -/
theorem C4_unresolved_field_amended_witness :
    colIdx c4Out.cols "temperature" = none :=
  C4_unresolved_field_amended c4In c4Out "tempm" "temperature" (by decide) (by decide)
    (by decide) (by decide)

-- ===== C5 =====

/-- C5 (counterexample): a raw `fog` cell holding the truthy value 2 is stored
as the integer 2 by `.fillna(0).astype(int)` — not coerced to a boolean
true/false — so the event flag is neither 0 nor 1. -/
theorem C5_counterexample :
    (cleanAndTransform ⟨["datetime", "fog"], [[Cell.str "1", Cell.num 2]]⟩).map
        (fun out => out.getCol? "fog_event") = .ok (some [Cell.num 2]) ∧
      (Cell.num 2 ≠ Cell.num 0 ∧ Cell.num 2 ≠ Cell.num 1) := by
  constructor
  · decide
  · constructor <;> decide

theorem critical_ne_event :
    ∀ e ∈ booleanColumns, ∀ m ∈ criticalColumns, m ≠ e ++ "_event" := by
  decide

theorem otherNumeric_ne_event :
    ∀ e ∈ booleanColumns, ∀ m ∈ otherNumericColumns, m ≠ e ++ "_event" := by
  decide

theorem eventNames_nodup : (booleanColumns.map (fun e => e ++ "_event")).Nodup := by
  decide

/-- C5 (amended): in every canonical output all six event-flag columns are
present and never null — each cell is an integer: a missing raw cell became 0
and a resolved raw cell was converted by `int(...)`, and when no raw column
resolves for the event kind the whole column is 0.  But the conversion is
`.fillna(0).astype(int)`, not a boolean coercion: a truthy numeric cell other
than 1 keeps its integer value instead of becoming true (see the
counterexample, where a `fog` cell of 2 yields flag 2), and a non-integer
string cell makes `astype(int)` raise. -/
theorem C5_event_flags_amended (df out : Frame)
    (hwf : df.WF) (hok : cleanAndTransform df = .ok out) :
    ∀ e ∈ booleanColumns, ∃ cells,
      out.getCol? (e ++ "_event") = some cells ∧
      (∀ c ∈ cells, ∃ k : ℤ, c = intCell k) ∧
      (colMapping (addCol df.cols "datetime_utc") (strToLower e) = none →
        ∀ c ∈ cells, c = Cell.num 0) := by
  obtain ⟨dtc, f4, hfind, hvalid, hev, hout⟩ := cleanAndTransform_ok_elim hok
  intro e he
  have hwf1 : (df.setCol "datetime_utc"
      (((df.getCol? dtc).getD []).map parseDtCell)).WF := setCol_WF hwf _
  have hwf2 := coerceStage_WF toNumericCell (addCol df.cols "datetime_utc")
    numericColumnsMap hwf1
  have hwf3 := coerceStage_WF coerceCategoricalCell (addCol df.cols "datetime_utc")
    categoricalColumnsMap hwf2
  have hpres : ∀ col ∈ booleanColumns, ∀ actual,
      colMapping (addCol df.cols "datetime_utc") (strToLower col) = some actual →
      (colIdx (categoricalStage (addCol df.cols "datetime_utc")
        (numericStage (addCol df.cols "datetime_utc")
          (df.setCol "datetime_utc"
            (((df.getCol? dtc).getD []).map parseDtCell)))).cols actual).isSome = true := by
    intro col _ actual hcm
    have hmem := (colMapping_spec hcm).2
    have h1 : (colIdx (df.setCol "datetime_utc"
        (((df.getCol? dtc).getD []).map parseDtCell)).cols actual).isSome = true := by
      rw [setCol_cols]
      exact colIdx_isSome_of_mem _ _ hmem
    exact coerceStage_colIdx_isSome _ _ _
      (coerceStage_colIdx_isSome _ _ _ h1)
  obtain ⟨howf, _, _, hcontent⟩ :=
    eventStage_some_content (addCol df.cols "datetime_utc") booleanColumns hwf3
      (fun c hc => hc) eventNames_nodup hpres hev
  obtain ⟨cells₄, hc₄, hint₄, hzero₄⟩ := hcontent e he
  obtain ⟨cells₅, hc₅, hsub₅⟩ := dropInvalidDates_getCol?_subset hc₄
  have hwf₅ := dropInvalidDates_WF howf
  have hc₆ : (imputeStage imputeCritical criticalColumns
      (dropInvalidDates f4)).getCol? (e ++ "_event") = some cells₅ := by
    rw [imputeStage_getCol?_ne imputeCritical criticalColumns hwf₅
      (fun m hm => critical_ne_event e he m hm)]
    exact hc₅
  have hwf₆ := imputeStage_WF imputeCritical criticalColumns hwf₅
  have hc₇ : (imputeStage imputeOther otherNumericColumns
      (imputeStage imputeCritical criticalColumns
        (dropInvalidDates f4))).getCol? (e ++ "_event") = some cells₅ := by
    rw [imputeStage_getCol?_ne imputeOther otherNumericColumns hwf₆
      (fun m hm => otherNumeric_ne_event e he m hm)]
    exact hc₆
  obtain ⟨cells₈, hc₈, hsub₈⟩ := sortByDatetime_getCol?_subset hc₇
  refine ⟨cells₈, by rw [hout]; exact hc₈, ?_, ?_⟩
  · intro c hc
    exact hint₄ c (hsub₅ c (hsub₈ c hc))
  · intro hnone c hc
    exact hzero₄ hnone c (hsub₅ c (hsub₈ c hc))



/-- C5 witness: the amended event-flag property at a concrete successful run,
instantiated at the `fog` event kind. -/
theorem C5_event_flags_amended_witness :
    ∃ cells, c5Out.getCol? ("fog" ++ "_event") = some cells ∧
      (∀ c ∈ cells, ∃ k : ℤ, c = intCell k) ∧
      (colMapping (addCol c5In.cols "datetime_utc") (strToLower "fog") = none →
        ∀ c ∈ cells, c = Cell.num 0) :=
  C5_event_flags_amended c5In c5Out (by decide) (by decide) "fog" (by decide)

-- ===== C6 support =====

theorem ev_key_ne_datetime :
    ∀ col ∈ booleanColumns, normKey "datetime_utc" ≠ strToLower col := by
  decide

theorem datetime_ne_event :
    ∀ e ∈ booleanColumns, ("datetime_utc" : String) ≠ e ++ "_event" := by
  decide

theorem canonical_key_ne_event :
    ∀ col ∈ booleanColumns, ∀ p ∈ numericColumnsMap ++ categoricalColumnsMap,
    normKey p.2 ≠ strToLower col := by
  decide

theorem canonicalField_ne_datetime_each :
    (∀ p ∈ numericColumnsMap, p.2 ≠ "datetime_utc") ∧
    (∀ p ∈ categoricalColumnsMap, p.2 ≠ "datetime_utc") :=
  ⟨fun p hp => canonicalField_ne_datetime p (List.mem_append_left _ hp),
    fun p hp => canonicalField_ne_datetime p (List.mem_append_right _ hp)⟩

theorem parseDtCell_notNull_iff (c : Cell) :
    (!(isNull (parseDtCell c))) = !((toDatetime c).isNone) := by
  unfold parseDtCell
  cases toDatetime c <;> simp [isNull]

theorem parsed_nonnull_count (dtRaw : List Cell) :
    ((dtRaw.map parseDtCell).filter (fun c => !(isNull c))).length =
      dtRaw.length - dtRaw.countP (fun c => (toDatetime c).isNone) := by
  rw [← List.countP_eq_length_filter, List.countP_map]
  have h1 : List.countP ((fun c => !(isNull c)) ∘ parseDtCell) dtRaw =
      List.countP (fun c => !((toDatetime c).isNone)) dtRaw := by
    apply List.countP_congr
    intro c _
    simp [Function.comp, parseDtCell_notNull_iff c]
  rw [h1]
  have h2 := List.length_eq_countP_add_countP (fun c => (toDatetime c).isNone) dtRaw
  have h3 : List.countP (fun a => decide ¬((toDatetime a).isNone = true)) dtRaw =
      List.countP (fun c => !((toDatetime c).isNone)) dtRaw := by
    apply List.countP_congr
    intro c _
    cases toDatetime c <;> simp
  rw [h3] at h2
  omega

theorem getCol?_isSome {f : Frame} {n : String} {l : List Cell}
    (h : f.getCol? n = some l) : (colIdx f.cols n).isSome = true := by
  unfold Frame.getCol? at h
  cases hidx : colIdx f.cols n with
  | none => rw [hidx] at h; simp at h
  | some i => simp

theorem imputeStage_colIdx_isSome (imp : List Cell → List Cell) :
    ∀ (names : List String) {f : Frame} {n : String},
    (colIdx f.cols n).isSome = true →
    (colIdx (imputeStage imp names f).cols n).isSome = true := by
  intro names
  induction names with
  | nil => intro f n h; exact h
  | cons col names ih =>
      intro f n hsome
      rw [imputeStage_cons]
      cases f.getCol? col with
      | none => exact ih hsome
      | some cells =>
          by_cases hmiss : 0 < (cells.filter isNull).length
          · simp only [hmiss, if_true]
            refine ih ?_
            rw [setCol_cols]
            exact colIdx_addCol_isSome _ _ _ hsome
          · simp only [hmiss, if_false]; exact ih hsome

theorem dropInvalidDates_rows_length {f : Frame} {l : List Cell}
    (h : f.getCol? "datetime_utc" = some l) :
    (dropInvalidDates f).rows.length = (l.filter (fun c => !(isNull c))).length := by
  have hidxs := getCol?_isSome h
  cases hidx : colIdx f.cols "datetime_utc" with
  | none => rw [hidx] at hidxs; simp at hidxs
  | some i =>
      unfold dropInvalidDates
      rw [hidx]
      unfold Frame.getCol? at h
      rw [hidx] at h
      simp only [Option.map_some', Option.some.injEq] at h
      simp only
      rw [← List.countP_eq_length_filter, ← List.countP_eq_length_filter, ← h,
        List.countP_map]
      rfl

theorem sortByDatetime_sorted {f : Frame} {i : ℕ}
    (hidx : colIdx f.cols "datetime_utc" = some i) :
    ∃ l, (sortByDatetime f).getCol? "datetime_utc" = some l ∧
      l.Pairwise (fun a b => qOf a ≤ qOf b) := by
  unfold sortByDatetime
  rw [hidx]
  refine ⟨(List.insertionSort (fun a b => dtKey i a ≤ dtKey i b) f.rows).map
      (fun r => r.getD i Cell.null), ?_, ?_⟩
  · unfold Frame.getCol?
    simp only
    rw [hidx]
    rfl
  · have hs : List.Sorted (fun a b => dtKey i a ≤ dtKey i b)
        (List.insertionSort (fun a b => dtKey i a ≤ dtKey i b) f.rows) := by
      haveI h1 : IsTotal (List Cell) (fun a b => dtKey i a ≤ dtKey i b) :=
        ⟨fun a b => le_total _ _⟩
      haveI h2 : IsTrans (List Cell) (fun a b => dtKey i a ≤ dtKey i b) :=
        ⟨fun a b c hab hbc => le_trans hab hbc⟩
      exact List.sorted_insertionSort _ _
    rw [List.pairwise_map]
    exact hs

-- ===== C6 =====

/-- C6 (counterexample): valid timestamps alone do not guarantee success — with
one row whose timestamp parses (so K = 0 < N = 1) but whose `fog` cell is a
non-integer string, `.fillna(0).astype(int)` raises (here: the cast error), so
the claim's "otherwise the pipeline succeeds" fails as stated. -/
theorem C6_counterexample :
    cleanAndTransform ⟨["datetime", "fog"], [[Cell.str "1", Cell.str "x"]]⟩ =
      .error .castError := by
  decide

/-- C6 (amended): assume the event columns are convertible (every cell of every
raw column that resolves for an event kind is integer-convertible — without
this the event cast can still raise, see the counterexample).  Then for N input
rows of which exactly K have unparseable timestamps: if K = N the pipeline
fails with the data-quality error ("no valid dates") and produces no output;
if K < N it succeeds, the canonical output has exactly N − K rows, and the
output's `datetime_utc` column is sorted ascending. -/
theorem C6_row_drop_amended (df : Frame) (dtc : String)
    (hwf : df.WF) (hdt : findDatetimeCol df.cols = some dtc)
    (hev : ∀ col ∈ booleanColumns, ∀ actual,
      colMapping (addCol df.cols "datetime_utc") (strToLower col) = some actual →
      ∀ c ∈ (df.getCol? actual).getD [], (intOfCell? c).isSome = true) :
    (((df.getCol? dtc).getD []).countP (fun c => (toDatetime c).isNone) = df.rows.length →
      cleanAndTransform df = .error .dataQualityError) ∧
    (((df.getCol? dtc).getD []).countP (fun c => (toDatetime c).isNone) < df.rows.length →
      ∃ out, cleanAndTransform df = .ok out ∧
        out.rows.length = df.rows.length -
          ((df.getCol? dtc).getD []).countP (fun c => (toDatetime c).isNone) ∧
        ∃ l, out.getCol? "datetime_utc" = some l ∧
          l.Pairwise (fun a b => qOf a ≤ qOf b)) := by
  have hmem : dtc ∈ df.cols := List.mem_of_find?_eq_some hdt
  obtain ⟨dtRaw0, hdtr, hdtrlen⟩ := getCol?_of_colIdx_isSome (colIdx_isSome_of_mem _ _ hmem)
  have hplen : (((df.getCol? dtc).getD []).map parseDtCell).length = df.rows.length := by
    rw [List.length_map, hdtr]
    simpa using hdtrlen
  have hf1get : (df.setCol "datetime_utc"
      (((df.getCol? dtc).getD []).map parseDtCell)).getCol? "datetime_utc" =
      some (((df.getCol? dtc).getD []).map parseDtCell) :=
    getCol?_setCol_same hwf hplen
  have hvalidcount : (((((df.setCol "datetime_utc"
      (((df.getCol? dtc).getD []).map parseDtCell)).getCol? "datetime_utc").getD
        []).filter (fun c => !(isNull c))).length) =
      df.rows.length - ((df.getCol? dtc).getD []).countP (fun c => (toDatetime c).isNone) := by
    rw [hf1get]
    simp only [Option.getD_some]
    rw [parsed_nonnull_count]
    have : ((df.getCol? dtc).getD []).length = df.rows.length := by
      rw [hdtr]
      simpa using hdtrlen
    rw [this]
  constructor
  · intro hKN
    unfold cleanAndTransform
    rw [hdt]
    simp only
    rw [if_pos (by rw [hvalidcount, hKN]; omega)]
  · intro hKN
    have hvalidne : ¬((((((df.setCol "datetime_utc"
        (((df.getCol? dtc).getD []).map parseDtCell)).getCol? "datetime_utc").getD
          []).filter (fun c => !(isNull c))).length) = 0) := by
      rw [hvalidcount]
      omega
    -- well-formedness along the coercion stages
    have hwf1 : (df.setCol "datetime_utc"
        (((df.getCol? dtc).getD []).map parseDtCell)).WF := setCol_WF hwf _
    have hwf2 := coerceStage_WF toNumericCell (addCol df.cols "datetime_utc")
      numericColumnsMap hwf1
    have hwf3 := coerceStage_WF coerceCategoricalCell (addCol df.cols "datetime_utc")
      categoricalColumnsMap hwf2
    -- transport the event hypothesis to the frame seen by the event stage
    have hres : ∀ col ∈ booleanColumns, ∀ actual,
        colMapping (addCol df.cols "datetime_utc") (strToLower col) = some actual →
        ((colIdx (coerceStage coerceCategoricalCell categoricalColumnsMap
            (addCol df.cols "datetime_utc")
            (coerceStage toNumericCell numericColumnsMap (addCol df.cols "datetime_utc")
              (df.setCol "datetime_utc"
                (((df.getCol? dtc).getD []).map parseDtCell)))).cols actual).isSome = true ∧
          ∀ c ∈ ((coerceStage coerceCategoricalCell categoricalColumnsMap
            (addCol df.cols "datetime_utc")
            (coerceStage toNumericCell numericColumnsMap (addCol df.cols "datetime_utc")
              (df.setCol "datetime_utc"
                (((df.getCol? dtc).getD []).map parseDtCell)))).getCol? actual).getD [],
            (intOfCell? c).isSome = true) := by
      intro col hcol actual hcm
      have hkey := (colMapping_spec hcm).1
      have hamem := (colMapping_spec hcm).2
      have hne_dt : actual ≠ "datetime_utc" := by
        intro heq
        rw [heq] at hkey
        exact ev_key_ne_datetime col hcol hkey
      have hne_num : ∀ p ∈ numericColumnsMap, p.2 ≠ actual := by
        intro p hp heq
        have h := canonical_key_ne_event col hcol p (List.mem_append_left _ hp)
        rw [heq, hkey] at h
        exact h rfl
      have hne_cat : ∀ p ∈ categoricalColumnsMap, p.2 ≠ actual := by
        intro p hp heq
        have h := canonical_key_ne_event col hcol p (List.mem_append_right _ hp)
        rw [heq, hkey] at h
        exact h rfl
      constructor
      · have h1 : (colIdx (df.setCol "datetime_utc"
            (((df.getCol? dtc).getD []).map parseDtCell)).cols actual).isSome = true := by
          rw [setCol_cols]
          exact colIdx_isSome_of_mem _ _ hamem
        exact coerceStage_colIdx_isSome _ _ _ (coerceStage_colIdx_isSome _ _ _ h1)
      · rw [coerceStage_getCol?_ne coerceCategoricalCell (addCol df.cols "datetime_utc")
          categoricalColumnsMap hwf2 (fun p hp => hne_cat p hp)]
        rw [coerceStage_getCol?_ne toNumericCell (addCol df.cols "datetime_utc")
          numericColumnsMap hwf1 (fun p hp => hne_num p hp)]
        rw [getCol?_setCol_ne hwf hne_dt]
        exact hev col hcol actual hcm
    obtain ⟨f4, hfold, hwf4, hlen4, hget4, _, _⟩ :=
      eventStage_fold_spec (addCol df.cols "datetime_utc") booleanColumns _ hwf3
        (fun c hc => hc) eventNames_nodup hres
    -- the pipeline succeeds and produces the staged output
    have hok : cleanAndTransform df = .ok (sortByDatetime
        (imputeStage imputeOther otherNumericColumns
          (imputeStage imputeCritical criticalColumns (dropInvalidDates f4)))) := by
      unfold cleanAndTransform
      rw [hdt]
      simp only
      rw [if_neg hvalidne, setCol_cols]
      unfold eventStage
      simp only [numericStage, categoricalStage]
      rw [hfold]
    -- the datetime column of the event-stage output is still the parsed column
    have hf4get : f4.getCol? "datetime_utc" =
        some (((df.getCol? dtc).getD []).map parseDtCell) := by
      rw [hget4 _ (fun e he => datetime_ne_event e he)]
      rw [coerceStage_getCol?_ne coerceCategoricalCell (addCol df.cols "datetime_utc")
        categoricalColumnsMap hwf2 (fun p hp => canonicalField_ne_datetime_each.2 p hp)]
      rw [coerceStage_getCol?_ne toNumericCell (addCol df.cols "datetime_utc")
        numericColumnsMap hwf1 (fun p hp => canonicalField_ne_datetime_each.1 p hp)]
      exact hf1get
    -- row count after the drop, imputation and sort
    have hdroplen : (dropInvalidDates f4).rows.length =
        df.rows.length -
          ((df.getCol? dtc).getD []).countP (fun c => (toDatetime c).isNone) := by
      rw [dropInvalidDates_rows_length hf4get, parsed_nonnull_count]
      have : ((df.getCol? dtc).getD []).length = df.rows.length := by
        rw [hdtr]
        simpa using hdtrlen
      rw [this]
    have houtlen : (sortByDatetime (imputeStage imputeOther otherNumericColumns
        (imputeStage imputeCritical criticalColumns
          (dropInvalidDates f4)))).rows.length =
        df.rows.length -
          ((df.getCol? dtc).getD []).countP (fun c => (toDatetime c).isNone) := by
      rw [sortByDatetime_rows_length, imputeStage_rows_length, imputeStage_rows_length]
      exact hdroplen
    -- sortedness of the final datetime column
    have hidx6 : (colIdx (imputeStage imputeOther otherNumericColumns
        (imputeStage imputeCritical criticalColumns
          (dropInvalidDates f4))).cols "datetime_utc").isSome = true := by
      refine imputeStage_colIdx_isSome _ _ (imputeStage_colIdx_isSome _ _ ?_)
      rw [dropInvalidDates_cols]
      exact getCol?_isSome hf4get
    cases hidx6' : colIdx (imputeStage imputeOther otherNumericColumns
        (imputeStage imputeCritical criticalColumns
          (dropInvalidDates f4))).cols "datetime_utc" with
    | none => rw [hidx6'] at hidx6; simp at hidx6
    | some i =>
        obtain ⟨l, hl, hlsorted⟩ := sortByDatetime_sorted hidx6'
        exact ⟨_, hok, houtlen, l, hl, hlsorted⟩


/-- C6 witness: the amended row-drop property at a concrete frame with
N = 3 rows and K = 1 unparseable timestamp. -/
theorem C6_row_drop_amended_witness :
    (((c6In.getCol? "datetime").getD []).countP (fun c => (toDatetime c).isNone) =
        c6In.rows.length →
      cleanAndTransform c6In = .error .dataQualityError) ∧
    (((c6In.getCol? "datetime").getD []).countP (fun c => (toDatetime c).isNone) <
        c6In.rows.length →
      ∃ out, cleanAndTransform c6In = .ok out ∧
        out.rows.length = c6In.rows.length -
          ((c6In.getCol? "datetime").getD []).countP (fun c => (toDatetime c).isNone) ∧
        ∃ l, out.getCol? "datetime_utc" = some l ∧
          l.Pairwise (fun a b => qOf a ≤ qOf b)) :=
  C6_row_drop_amended c6In "datetime" (by decide) (by decide)
    (fun col hcol actual hcm => by
      have hnone : colMapping (addCol c6In.cols "datetime_utc") (strToLower col) = none := by
        fin_cases hcol <;> decide
      rw [hnone] at hcm
      exact Option.noConfusion hcm)
